import Mathlib

set_option maxHeartbeats 1000000

attribute [local semireducible] Rat.sub Rat.add Rat.mul Rat.inv

/-!
Verification of the Figma-to-HTML scene-graph-to-markup compiler
(`src/unnamed/part_000`).  JS strings are modelled as `List Char`,
JS numbers as rationals (`ℚ`); `Math.round` is half-up rounding, which
agrees with Mathlib's `round` on `ℚ`.  JS `Map` / `Set` are modelled as
insertion-ordered association lists / lists, matching the iteration
order the source relies on.
-/

namespace FigmaExport

/-- JS strings modelled as lists of UTF-16-ish characters. -/
abbrev Str := List Char

/-- The double-quote character. -/
def quoteCh : Char := Char.ofNat 34

/-- The single-quote (apostrophe) character. -/
def aposCh : Char := Char.ofNat 39

/-- The left-brace character. -/
def lbraceCh : Char := Char.ofNat 123

/-- The right-brace character. -/
def rbraceCh : Char := Char.ofNat 125

/-- Decimal digit character for a value below ten. -/
def digitCh : Nat → Char
  | 0 => '0'
  | 1 => '1'
  | 2 => '2'
  | 3 => '3'
  | 4 => '4'
  | 5 => '5'
  | 6 => '6'
  | 7 => '7'
  | 8 => '8'
  | _ => '9'

/-- Digits of a positive natural number, most significant first
(fuel-based so that the kernel can evaluate it). -/
def natToStrAux : Nat → Nat → Str
  | 0, _ => []
  | fuel + 1, n =>
    if n = 0 then [] else natToStrAux fuel (n / 10) ++ [digitCh (n % 10)]

/-- Decimal rendering of a natural number (JS template interpolation of a
nonnegative integer). -/
def natToStr (n : Nat) : Str :=
  if n = 0 then ['0'] else natToStrAux n n

/-- Decimal rendering of an integer. -/
def intToStr (i : Int) : Str :=
  if i < 0 then '-' :: natToStr i.natAbs else natToStr i.toNat

/-- Fractional decimal digits of a rational in `[0,1)`, up to `fuel` digits
(JS prints the shortest round-tripping decimal of a binary double; the
source only renders values with short finite expansions). -/
def fracDigs : Nat → ℚ → Str
  | 0, _ => []
  | fuel + 1, q =>
    if q = 0 then []
    else
      let d := ((q * 10).floor).toNat
      digitCh d :: fracDigs fuel (q * 10 - (d : ℚ))

/-- Decimal rendering of a nonnegative rational. -/
def qToStrNN (q : ℚ) : Str :=
  let ip := (q.floor).toNat
  let fp := q - (q.floor : ℚ)
  if fp = 0 then natToStr ip else natToStr ip ++ '.' :: fracDigs 20 fp

/-- Decimal rendering of a rational, as JS renders a number. -/
def qToStr (q : ℚ) : Str := if q < 0 then '-' :: qToStrNN (-q) else qToStrNN q

/-- `Math.round`: half-up rounding, `⌊q + 1/2⌋` (computed with the
executable `Rat.floor`). -/
def jsRound (q : ℚ) : Int := (q + 1 / 2).floor

/-- `roundPx`: `Math.round(n * 100) / 100`. -/
def roundPx (q : ℚ) : ℚ := ((jsRound (q * 100) : ℤ) : ℚ) / 100

/-- `roundDim`: `Math.round(n)`. -/
def roundDim (q : ℚ) : Int := jsRound q

/-- `isMeaningfulRotation`: `Math.abs(r) >= 0.01`. -/
def isMeaningfulRotation (r : ℚ) : Bool := decide (|r| ≥ 1 / 100)

/-- `cssRotationDeg`: `roundPx(-rotation)`. -/
def cssRotationDeg (rotation : ℚ) : ℚ := roundPx (-rotation)

/-- `formatNegativeClassValue`: round the absolute value, prefix `neg-` for
negative inputs. -/
def formatNegativeClassValue (v : ℚ) : Str :=
  let absValue : Nat := (jsRound |v|).toNat
  if v < 0 then "neg-".data ++ natToStr absValue else natToStr absValue

/-- `lines.join('\n')`. -/
def joinNl (lines : List Str) : Str := List.intercalate ['\n'] lines

/-- `parts.join(' ')`. -/
def joinSp (parts : List Str) : Str := List.intercalate [' '] parts

/-- One entry of `context.styleEntries`. -/
structure StyleEntry where
  className : Str
  baseName : Str
  suffix : Nat
  cssText : Str
deriving DecidableEq

/-- The per-conversion-run mutable context (`ExportContext` in the source). -/
structure ExportContext where
  nameCounts : List (Str × Nat)
  styleMap : List (Str × Str)
  utilityClasses : List Str
  styleEntries : List StyleEntry
  fontFamiliesUsed : List Str
  usedBaseClasses : List Str
  svgIdCounter : Nat
deriving DecidableEq

/-- The fresh context built at the start of `exportSelection`. -/
def initContext : ExportContext := ⟨[], [], [], [], [], [], 0⟩

/-- `Map.get` on an insertion-ordered association list. -/
def alistGet {β : Type} : List (Str × β) → Str → Option β
  | [], _ => none
  | p :: t, k => if p.1 = k then some p.2 else alistGet t k

/-- `Map.set`: replace the existing binding in place or append a new one. -/
def alistSet {β : Type} : List (Str × β) → Str → β → List (Str × β)
  | [], k, v => [(k, v)]
  | p :: t, k, v => if p.1 = k then (k, v) :: t else p :: alistSet t k v

/-- The name produced for the `n`-th use of `base`
(`nextCount === 1 ? base : base-nextCount`). -/
def mkName (base : Str) (n : Nat) : Str :=
  if n = 1 then base else base ++ '-' :: natToStr n

/-- `getUniqueClassName`: per-base counter, first use returns the base
unchanged, later uses append `-2`, `-3`, …. -/
def getUniqueClassName (base : Str) (ctx : ExportContext) : Str × ExportContext :=
  let nextCount := (alistGet ctx.nameCounts base).getD 0 + 1
  (mkName base nextCount,
   { ctx with nameCounts := alistSet ctx.nameCounts base nextCount })

/-- Digits-to-number (`Number` applied to a digit string). -/
def digitsToNat (ds : Str) : Nat := ds.foldl (fun a c => a * 10 + (c.toNat - 48)) 0

/-- The regex split `^(.*?)-(\d+)$`: a trailing `-<digits>` suffix, when
present (the lazy prefix makes this the last-hyphen split with an
all-digits tail). -/
def splitDashDigits (s : Str) : Option (Str × Str) :=
  let rev := s.reverse
  let ds := rev.takeWhile Char.isDigit
  if ds.isEmpty then none
  else
    match rev.drop ds.length with
    | c :: rest => if c = '-' then some (rest.reverse, ds.reverse) else none
    | [] => none

/-- `getBaseNameAndSuffix`. -/
def getBaseNameAndSuffix (className : Str) : Str × Nat :=
  match splitDashDigits className with
  | some (b, ds) => (b, digitsToNat ds)
  | none => (className, 0)

/-- The suffix extracted by the trailing `-(\d+)$` regex in `getClassForStyle`. -/
def trailingSuffix (className : Str) : Nat := (getBaseNameAndSuffix className).2

/-- Whether a string ends in `-<digits>`. -/
def endsDashDigits (s : Str) : Bool := (splitDashDigits s).isSome

/-- `.${className} {\n${body}\n}\n\n`. -/
def cssWrap (className : Str) (body : Str) : Str :=
  ('.' :: className) ++ " \x7b\n".data ++ body ++ "\n\x7d\n\n".data

/-- `registerUtilityClass`: registered once per class name per run. -/
def registerUtilityClass (className : Str) (lines : List Str)
    (ctx : ExportContext) : ExportContext :=
  if className ∈ ctx.utilityClasses then ctx
  else
    let bs := getBaseNameAndSuffix className
    { ctx with
      utilityClasses := ctx.utilityClasses ++ [className]
      styleEntries := ctx.styleEntries ++
        [⟨className, bs.1, bs.2, cssWrap className (joinNl lines)⟩] }

/-- `getClassForStyle`: signature-keyed interning of a declaration list. -/
def getClassForStyle (baseName : Str) (lines : List Str)
    (ctx : ExportContext) : Str × ExportContext :=
  let signature := joinNl lines
  match alistGet ctx.styleMap signature with
  | some existing => (existing, ctx)
  | none =>
    let r := getUniqueClassName baseName ctx
    let className := r.1
    let ctx1 := r.2
    let ctx2 := { ctx1 with styleMap := alistSet ctx1.styleMap signature className }
    let suffix := trailingSuffix className
    (className,
     { ctx2 with styleEntries := ctx2.styleEntries ++
        [⟨className, baseName, suffix, cssWrap className signature⟩] })

/-- One interning request: a base name and a declaration-line list. -/
abbrev Req := Str × List Str

/-- Run a sequence of interning requests, collecting the returned names. -/
def runReqs : List Req → ExportContext → List Str × ExportContext
  | [], ctx => ([], ctx)
  | r :: rs, ctx =>
    let p := getClassForStyle r.1 r.2 ctx
    let q := runReqs rs p.2
    (p.1 :: q.1, q.2)

/-- Iterate `getUniqueClassName` `n` times with one base. -/
def uniqueNames (base : Str) : Nat → ExportContext → List Str
  | 0, _ => []
  | n + 1, ctx =>
    let p := getUniqueClassName base ctx
    p.1 :: uniqueNames base n p.2

/-- The per-base counter value. -/
def cnt (ctx : ExportContext) (b : Str) : Nat := (alistGet ctx.nameCounts b).getD 0

/-! ### Stylesheet serialization (`exportSelection`) -/

/-- Lexicographic code-point comparison of strings (`localeCompare` is
modelled as code-point order). -/
def strLtB : Str → Str → Bool
  | [], [] => false
  | [], _ :: _ => true
  | _ :: _, [] => false
  | a :: as, b :: bs => if a < b then true else if b < a then false else strLtB as bs

/-- The sort comparator of `exportSelection`: by `baseName`, then by
`suffix` ascending. -/
def entryLE (a b : StyleEntry) : Prop :=
  strLtB a.baseName b.baseName = true ∨ (a.baseName = b.baseName ∧ a.suffix ≤ b.suffix)

instance : DecidableRel entryLE := fun a b => by
  unfold entryLE; infer_instance

/-- The sort key of a style entry. -/
def entryKey (e : StyleEntry) : Str × Nat := (e.baseName, e.suffix)

/-- `styleEntries.sort(comparator)` (ES2019 `Array.prototype.sort` is a
stable sort; insertion sort is stable). -/
def sortStyleEntries (es : List StyleEntry) : List StyleEntry :=
  List.insertionSort entryLE es

/-- The constant reset rule prepended to the stylesheet. -/
def cssHeader : Str := "body, p \x7b margin: 0; \x7d\n\n".data

/-- The CSS text blob assembled by `exportSelection` (HTML mode: header
followed by the sorted entries' css texts). -/
def serializeCss (ctx : ExportContext) : Str :=
  cssHeader ++ (List.map (fun e => e.cssText) (sortStyleEntries ctx.styleEntries)).flatten

/-- The (base, signature) key of an interning request. -/
def keyPair (r : Req) : Str × Str := (r.1, joinNl r.2)

/-- The style entry produced by the first interning of signature `p.2`
under base `p.1` when that base is minted for the first time. -/
def mkSimEntry (p : Str × Str) : StyleEntry :=
  ⟨p.1, p.1, trailingSuffix p.1, cssWrap p.1 p.2⟩

/-- First occurrences of new signatures among a request list, given the
(base, signature) pairs already interned. -/
def simPairs : List Req → List (Str × Str) → List (Str × Str)
  | [], _ => []
  | r :: rs, seen =>
    if joinNl r.2 ∈ seen.map Prod.snd then simPairs rs seen
    else keyPair r :: simPairs rs (seen ++ [keyPair r])

/-- The context determined by a list of already-interned
(base, signature) pairs, each base minted exactly once. -/
def ctxOfPairs (ps : List (Str × Str)) : ExportContext :=
  { nameCounts := ps.map (fun p => (p.1, 1))
    styleMap := ps.map (fun p => (p.2, p.1))
    utilityClasses := []
    styleEntries := ps.map mkSimEntry
    fontFamiliesUsed := []
    usedBaseClasses := []
    svgIdCounter := 0 }

/-- The style entries whose css text is the wrapper of signature `s`
around their own class name. -/
def entriesForSig (s : Str) (ctx : ExportContext) : List StyleEntry :=
  ctx.styleEntries.filter (fun e => decide (e.cssText = cssWrap e.className s))

/-- Agreement of base names and signatures across a request list: two
requests use the same base name exactly when they carry the same
signature. -/
abbrev pairCond (l : List (Str × Str)) : Prop :=
  ∀ p ∈ l, ∀ q ∈ l, (p.1 = q.1 ↔ p.2 = q.2)

/-- Registry run invariant: every interned class name is `mkName b k` for
some already-counted use `k` of a base `b` that does not itself end in
`-<digits>`, and no class name is interned for two signatures. -/
def RegINV (ctx : ExportContext) : Prop :=
  (∀ p ∈ ctx.styleMap, ∃ b k, endsDashDigits b = false ∧ 1 ≤ k ∧ k ≤ cnt ctx b ∧
    p.2 = mkName b k) ∧
  (ctx.styleMap.map Prod.snd).Nodup

/-- Per-signature invariant: a signature absent from the style map has no
style entry, and a signature never has more than one entry. -/
def SigINV (s : Str) (ctx : ExportContext) : Prop :=
  (alistGet ctx.styleMap s = none → entriesForSig s ctx = []) ∧
  (entriesForSig s ctx).length ≤ 1

/-! ### Flex utilities (`registerFlexUtilities`) -/

inductive LayoutMode where
  | noneMode
  | horizontal
  | vertical
  | grid
deriving DecidableEq

inductive AxisAlign where
  | amin
  | amax
  | acenter
  | spaceBetween
deriving DecidableEq

inductive CounterAlign where
  | cmin
  | cmax
  | ccenter
  | baseline
  | autoAlign
deriving DecidableEq

inductive LayoutWrap where
  | wrapMode
  | noWrap
deriving DecidableEq

/-- The frame fields consumed by `registerFlexUtilities`.
`counterAxisAlignContent` is the source's `=== 'SPACE_BETWEEN'` test. -/
structure FlexFrame where
  layoutMode : LayoutMode
  layoutWrap : LayoutWrap
  counterAxisAlignContentSpaceBetween : Bool
  counterAxisSpacing : Option ℚ
  itemSpacing : ℚ
  paddingTop : ℚ
  paddingRight : ℚ
  paddingBottom : ℚ
  paddingLeft : ℚ
  primaryAxisAlignItems : AxisAlign
  counterAxisAlignItems : CounterAlign
deriving DecidableEq

/-- `mapPrimaryAxis`. -/
def mapPrimaryAxis : AxisAlign → Str
  | .amin => "flex-start".data
  | .amax => "flex-end".data
  | .acenter => "center".data
  | .spaceBetween => "space-between".data

/-- `mapCounterAxis`. -/
def mapCounterAxis : CounterAlign → Str
  | .cmin => "flex-start".data
  | .cmax => "flex-end".data
  | .ccenter => "center".data
  | .baseline => "baseline".data
  | .autoAlign => "stretch".data

/-- The justify-content class name chosen from the primary alignment. -/
def justifyClassOf : AxisAlign → Str
  | .amin => "justify-start".data
  | .amax => "justify-end".data
  | .acenter => "justify-center".data
  | .spaceBetween => "justify-between".data

/-- The align-items class name chosen from the counter alignment. -/
def itemsClassOf : CounterAlign → Str
  | .cmin => "items-start".data
  | .cmax => "items-end".data
  | .ccenter => "items-center".data
  | .baseline => "items-baseline".data
  | .autoAlign => "items-stretch".data

/-- The wrap block of `registerFlexUtilities` (flex-wrap, align-content,
counter-axis gap classes). -/
def flexWrapBlock (frame : FlexFrame) (ctx2 : ExportContext) :
    List Str × ExportContext :=
  if frame.layoutWrap = .wrapMode then
    let ctxA := registerUtilityClass "flex-wrap".data ["  flex-wrap: wrap;".data] ctx2
    let ctxB :=
      if frame.counterAxisAlignContentSpaceBetween then
        registerUtilityClass "content-between".data
          ["  align-content: space-between;".data] ctxA
      else ctxA
    let clsB : List Str := "flex-wrap".data ::
      (if frame.counterAxisAlignContentSpaceBetween then ["content-between".data] else [])
    let counterSpacing := frame.counterAxisSpacing.getD frame.itemSpacing
    if counterSpacing > 0 then
      if frame.layoutMode = .horizontal then
        let rowGapClass := "row-gap-".data ++ formatNegativeClassValue counterSpacing
        (clsB ++ [rowGapClass],
         registerUtilityClass rowGapClass
           ["  row-gap: ".data ++ qToStr counterSpacing ++ "px;".data] ctxB)
      else
        let colGapClass := "column-gap-".data ++ formatNegativeClassValue counterSpacing
        (clsB ++ [colGapClass],
         registerUtilityClass colGapClass
           ["  column-gap: ".data ++ qToStr counterSpacing ++ "px;".data] ctxB)
    else (clsB, ctxB)
  else ([], ctx2)

/-- The gap block of `registerFlexUtilities`: a single numeric gap class,
omitted when the primary alignment is SPACE_BETWEEN (the source then
auto-distributes space). -/
def flexGapBlock (frame : FlexFrame) (ctx3 : ExportContext) :
    List Str × ExportContext :=
  if frame.primaryAxisAlignItems = .spaceBetween then ([], ctx3)
  else
    let gapClass := "gap-".data ++ formatNegativeClassValue frame.itemSpacing
    ([gapClass],
     registerUtilityClass gapClass
       ["  gap: ".data ++ qToStr frame.itemSpacing ++ "px;".data] ctx3)

/-- The padding block of `registerFlexUtilities`: one unified class when
all four sides agree, else up to four directional classes, each omitted
at value 0. -/
def flexPadBlock (frame : FlexFrame) (ctx4 : ExportContext) :
    List Str × ExportContext :=
  if frame.paddingTop = frame.paddingRight ∧ frame.paddingTop = frame.paddingBottom ∧
      frame.paddingTop = frame.paddingLeft then
    let padClass := "p-".data ++ formatNegativeClassValue frame.paddingTop
    ([padClass],
     registerUtilityClass padClass
       ["  padding: ".data ++ qToStr frame.paddingTop ++ "px;".data] ctx4)
  else
    let tPart : List Str × ExportContext :=
      if frame.paddingTop ≠ 0 then
        let c := "pt-".data ++ formatNegativeClassValue frame.paddingTop
        ([c], registerUtilityClass c
          ["  padding-top: ".data ++ qToStr frame.paddingTop ++ "px;".data] ctx4)
      else ([], ctx4)
    let rPart : List Str × ExportContext :=
      if frame.paddingRight ≠ 0 then
        let c := "pr-".data ++ formatNegativeClassValue frame.paddingRight
        (tPart.1 ++ [c], registerUtilityClass c
          ["  padding-right: ".data ++ qToStr frame.paddingRight ++ "px;".data] tPart.2)
      else (tPart.1, tPart.2)
    let bPart : List Str × ExportContext :=
      if frame.paddingBottom ≠ 0 then
        let c := "pb-".data ++ formatNegativeClassValue frame.paddingBottom
        (rPart.1 ++ [c], registerUtilityClass c
          ["  padding-bottom: ".data ++ qToStr frame.paddingBottom ++ "px;".data] rPart.2)
      else (rPart.1, rPart.2)
    if frame.paddingLeft ≠ 0 then
      let c := "pl-".data ++ formatNegativeClassValue frame.paddingLeft
      (bPart.1 ++ [c], registerUtilityClass c
        ["  padding-left: ".data ++ qToStr frame.paddingLeft ++ "px;".data] bPart.2)
    else (bPart.1, bPart.2)

/-- `registerFlexUtilities`: display, direction, wrap, gap, padding,
justify-content and align-items utility classes for an auto-layout frame. -/
def registerFlexUtilities (frame : FlexFrame) (ctx0 : ExportContext) :
    List Str × ExportContext :=
  let ctx1 := registerUtilityClass "flex".data ["  display: flex;".data] ctx0
  let directionClass : Str :=
    if frame.layoutMode = .horizontal then "flex-row".data else "flex-col".data
  let dirLine : Str := "  flex-direction: ".data ++
    (if frame.layoutMode = .horizontal then "row".data else "column".data) ++ ";".data
  let ctx2 := registerUtilityClass directionClass [dirLine] ctx1
  let wrapPart := flexWrapBlock frame ctx2
  let gapPart := flexGapBlock frame wrapPart.2
  let padPart := flexPadBlock frame gapPart.2
  let ctx5 := padPart.2
  let justifyClass := justifyClassOf frame.primaryAxisAlignItems
  let ctx6 := registerUtilityClass justifyClass
    ["  justify-content: ".data ++ mapPrimaryAxis frame.primaryAxisAlignItems ++ ";".data] ctx5
  let itemsClass := itemsClassOf frame.counterAxisAlignItems
  let ctx7 := registerUtilityClass itemsClass
    ["  align-items: ".data ++ mapCounterAxis frame.counterAxisAlignItems ++ ";".data] ctx6
  ("flex".data :: directionClass :: (wrapPart.1 ++ gapPart.1 ++ padPart.1 ++
    [justifyClass, itemsClass]), ctx7)

/-! ### Name sanitization (`sanitizeName`) -/

/-- ASCII lowercasing, the fragment of `String.prototype.toLowerCase`
relevant to the kept character class. -/
def asciiLower (c : Char) : Char :=
  if 'A' ≤ c ∧ c ≤ 'Z' then Char.ofNat (c.toNat + 32) else c

/-- The kept character class `[a-z0-9-_ ]`. -/
def isAllowedSan (c : Char) : Bool :=
  ('a' ≤ c && c ≤ 'z') || ('0' ≤ c && c ≤ '9') || c = '-' || c = '_' || c = ' '

/-- `trim()` (after the strip only plain spaces remain as whitespace). -/
def trimSpaces (s : Str) : Str :=
  ((s.dropWhile (fun c => c = ' ')).reverse.dropWhile (fun c => c = ' ')).reverse

/-- `replace(/\s+/g, '-')` (only plain spaces remain at this stage). -/
def collapseWs : Str → Str
  | [] => []
  | c :: t =>
    if c = ' ' then '-' :: collapseWs (t.dropWhile (fun d => d = ' '))
    else c :: collapseWs t
termination_by l => l.length
decreasing_by
  · simp only [List.length_cons]
    exact Nat.lt_succ_of_le (List.dropWhile_sublist _).length_le
  · simp

/-- `replace(/^-+|-+$/g, '')`. -/
def trimHyphens (s : Str) : Str :=
  ((s.dropWhile (fun c => c = '-')).reverse.dropWhile (fun c => c = '-')).reverse

/-- `sanitizeName`: lowercase, strip to `[a-z0-9-_ ]`, trim, collapse
whitespace runs to hyphens, trim leading/trailing hyphens. -/
def sanitizeName (name : Str) : Str :=
  trimHyphens (collapseWs (trimSpaces ((name.map asciiLower).filter isAllowedSan)))

/-! ### Text escaping (`escapeHtml`, `escapeJsxText`) -/

/-- The per-character replacement table of `escapeHtml`. -/
def escMapHtml (c : Char) : Str :=
  if c = '&' then "&amp;".data
  else if c = '<' then "&lt;".data
  else if c = '>' then "&gt;".data
  else if c = quoteCh then "&quot;".data
  else if c = aposCh then "&#39;".data
  else [c]

/-- `escapeHtml`. -/
def escapeHtml (text : Str) : Str := text.flatMap escMapHtml

/-- The per-character replacement table of `escapeJsxText`. -/
def escMapJsx (c : Char) : Str :=
  if c = '&' then "&amp;".data
  else if c = '<' then "&lt;".data
  else if c = '>' then "&gt;".data
  else if c = lbraceCh then "&#123;".data
  else if c = rbraceCh then "&#125;".data
  else [c]

/-- `escapeJsxText`. -/
def escapeJsxText (text : Str) : Str := text.flatMap escMapJsx

/-! ### Absolute positioning (`getAbsolutePositionStyles`) -/

inductive ConstraintKind where
  | cMin
  | cMax
  | cCenter
  | cStretch
  | cScale
deriving DecidableEq

inductive LayoutPositioning where
  | absolutePos
  | autoPos
deriving DecidableEq

/-- The node fields consumed by `getAbsolutePositionStyles`. -/
structure AbsChild where
  id : Nat
  x : ℚ
  y : ℚ
  width : ℚ
  height : ℚ
  rotation : ℚ
  layoutPositioning : LayoutPositioning
  constraintH : ConstraintKind
  constraintV : ConstraintKind
deriving DecidableEq

/-- The parent-frame fields consumed by `getAbsolutePositionStyles`;
children are listed by node id (`indexOf` is modelled by id lookup). -/
structure ParentFrameGeom where
  width : ℚ
  height : ℚ
  childIds : List Nat
deriving DecidableEq

/-- `getAbsolutePositionStyles`: constraint-derived position declarations
for an absolutely positioned child of a layout frame. -/
def getAbsolutePositionStyles (node : AbsChild) (parentFrame : Option ParentFrameGeom) :
    List Str :=
  match parentFrame with
  | none => []
  | some pf =>
    if node.layoutPositioning ≠ .absolutePos then []
    else
      let zPart : List Str :=
        match pf.childIds.findIdx? (fun i => i = node.id) with
        | some i => ["z-index: ".data ++ natToStr i]
        | none => []
      let left := roundPx node.x
      let top := roundPx node.y
      let right := roundPx (pf.width - (node.x + node.width))
      let bottom := roundPx (pf.height - (node.y + node.height))
      let hPart : List Str × List Str :=
        match node.constraintH with
        | .cMax => (["right: ".data ++ qToStr right ++ "px".data], [])
        | .cCenter =>
          let centerX := node.x + node.width / 2
          let offsetX := roundPx (centerX - pf.width / 2)
          (["left: 50%".data],
           "translateX(-50%)".data ::
             (if jsRound offsetX ≠ 0 then
               ["translateX(".data ++ qToStr offsetX ++ "px)".data] else []))
        | .cStretch =>
          (["left: ".data ++ qToStr left ++ "px".data,
            "right: ".data ++ qToStr right ++ "px".data], [])
        | _ => (["left: ".data ++ qToStr left ++ "px".data], [])
      let vPart : List Str × List Str :=
        match node.constraintV with
        | .cMax => (["bottom: ".data ++ qToStr bottom ++ "px".data], [])
        | .cCenter =>
          let centerY := node.y + node.height / 2
          let offsetY := roundPx (centerY - pf.height / 2)
          (["top: 50%".data],
           "translateY(-50%)".data ::
             (if jsRound offsetY ≠ 0 then
               ["translateY(".data ++ qToStr offsetY ++ "px)".data] else []))
        | .cStretch =>
          (["top: ".data ++ qToStr top ++ "px".data,
            "bottom: ".data ++ qToStr bottom ++ "px".data], [])
        | _ => (["top: ".data ++ qToStr top ++ "px".data], [])
      let rotPart : List Str :=
        if isMeaningfulRotation node.rotation then ["transform-origin: 0 0".data] else []
      let transformParts := hPart.2 ++ vPart.2 ++
        (if isMeaningfulRotation node.rotation then
          ["rotate(".data ++ qToStr (cssRotationDeg node.rotation) ++ "deg)".data] else [])
      ("position: absolute".data :: zPart ++ hPart.1 ++ vPart.1 ++ rotPart ++
        (if transformParts ≠ [] then
          ["transform: ".data ++ joinSp transformParts] else []))

/-- The z-index contribution of `getAbsolutePositionStyles`
(`indexOf` modelled by id lookup). -/
def zPartE (node : AbsChild) (pf : ParentFrameGeom) : List Str :=
  match pf.childIds.findIdx? (fun i => i = node.id) with
  | some i => ["z-index: ".data ++ natToStr i]
  | none => []

/-- The horizontal-constraint switch of `getAbsolutePositionStyles`:
its position declarations and its transform parts. -/
def hPartE (node : AbsChild) (pf : ParentFrameGeom) : List Str × List Str :=
  match node.constraintH with
  | .cMax =>
    (["right: ".data ++ qToStr (roundPx (pf.width - (node.x + node.width))) ++ "px".data],
     [])
  | .cCenter =>
    let centerX := node.x + node.width / 2
    let offsetX := roundPx (centerX - pf.width / 2)
    (["left: 50%".data],
     "translateX(-50%)".data ::
       (if jsRound offsetX ≠ 0 then
         ["translateX(".data ++ qToStr offsetX ++ "px)".data] else []))
  | .cStretch =>
    (["left: ".data ++ qToStr (roundPx node.x) ++ "px".data,
      "right: ".data ++ qToStr (roundPx (pf.width - (node.x + node.width))) ++ "px".data],
     [])
  | _ => (["left: ".data ++ qToStr (roundPx node.x) ++ "px".data], [])

/-- The vertical-constraint switch of `getAbsolutePositionStyles`:
its position declarations and its transform parts. -/
def vPartE (node : AbsChild) (pf : ParentFrameGeom) : List Str × List Str :=
  match node.constraintV with
  | .cMax =>
    (["bottom: ".data ++ qToStr (roundPx (pf.height - (node.y + node.height))) ++ "px".data],
     [])
  | .cCenter =>
    let centerY := node.y + node.height / 2
    let offsetY := roundPx (centerY - pf.height / 2)
    (["top: 50%".data],
     "translateY(-50%)".data ::
       (if jsRound offsetY ≠ 0 then
         ["translateY(".data ++ qToStr offsetY ++ "px)".data] else []))
  | .cStretch =>
    (["top: ".data ++ qToStr (roundPx node.y) ++ "px".data,
      "bottom: ".data ++ qToStr (roundPx (pf.height - (node.y + node.height))) ++ "px".data],
     [])
  | _ => (["top: ".data ++ qToStr (roundPx node.y) ++ "px".data], [])

/-- The `transform-origin` declaration pushed for a meaningful rotation. -/
def rotStyleE (node : AbsChild) : List Str :=
  if isMeaningfulRotation node.rotation then ["transform-origin: 0 0".data] else []

/-- The `rotate(...)` transform part pushed for a meaningful rotation. -/
def rotTransE (node : AbsChild) : List Str :=
  if isMeaningfulRotation node.rotation then
    ["rotate(".data ++ qToStr (cssRotationDeg node.rotation) ++ "deg)".data] else []

/-! ### Mask runs (`nodeToHtmlCss` frame-children loop) -/

inductive MKind where
  | rectangle
  | ellipseKind
  | frameKind
  | groupKind
  | componentKind
  | instanceKind
  | textKind
  | vectorKind
  | otherKind
deriving DecidableEq

/-- The node fields consumed by the mask-run loop and
`getClipPathFromMaskNode` (`cornerRadius = none` models `figma.mixed`). -/
structure MNode where
  id : Nat
  isMask : Bool
  kind : MKind
  cornerRadius : Option ℚ
  topLeftRadius : ℚ
  topRightRadius : ℚ
  bottomRightRadius : ℚ
  bottomLeftRadius : ℚ
  width : ℚ
  height : ℚ
deriving DecidableEq

/-- `getClipPathFromMaskNode`: rectangle and ellipse and container shapes
yield a clip path, any other shape yields none. -/
def getClipPathFromMaskNode (n : MNode) : Option Str :=
  if n.kind = .rectangle then
    match n.cornerRadius with
    | some r =>
      if r > 0 then
        some ("inset(0 round ".data ++ intToStr (roundDim r) ++ "px)".data)
      else some "inset(0)".data
    | none =>
      let tl := roundDim n.topLeftRadius
      let tr := roundDim n.topRightRadius
      let br := roundDim n.bottomRightRadius
      let bl := roundDim n.bottomLeftRadius
      if tl ≠ 0 ∨ tr ≠ 0 ∨ br ≠ 0 ∨ bl ≠ 0 then
        some ("inset(0 round ".data ++ intToStr tl ++ "px ".data ++ intToStr tr ++
          "px ".data ++ intToStr br ++ "px ".data ++ intToStr bl ++ "px)".data)
      else some "inset(0)".data
  else if n.kind = .ellipseKind then
    some "ellipse(50% 50% at 50% 50%)".data
  else if n.kind = .frameKind ∨ n.kind = .groupKind ∨ n.kind = .componentKind ∨
      n.kind = .instanceKind then
    match n.cornerRadius with
    | some r =>
      if r > 0 then
        some ("inset(0 round ".data ++ intToStr (roundDim r) ++ "px)".data)
      else some "inset(0)".data
    | none => some "inset(0)".data
  else none

/-- The wrapper styles pushed before the mask-image and position styles. -/
def wrapperBaseStyles (n : MNode) (clipPath : Str) : List Str :=
  ["width: ".data ++ intToStr (roundDim n.width) ++ "px".data,
   "height: ".data ++ intToStr (roundDim n.height) ++ "px".data,
   "position: absolute".data,
   "overflow: hidden".data,
   "clip-path: ".data ++ clipPath]

/-- The emissions of the sibling loop: an unmasked sibling, a mask node
itself, or the synthetic wrapper holding a mask's run of siblings. -/
inductive MaskEmit where
  | plain (n : MNode)
  | maskItself (n : MNode)
  | wrapper (mask : MNode) (styles : List Str) (masked : List MNode)
deriving DecidableEq

/-- One step of the frame-children loop of `nodeToHtmlCss`, restricted to
its grouping and wrapper-style behaviour.  `extra` abstracts the
mask-image styles and the position-relative-to-container styles appended
to the wrapper (they take the mask node and the loop index).  The fuel is
the remaining list length, making the index-based while loop structural. -/
def maskRunGo (extra : MNode → Nat → List Str) :
    Nat → List MNode → Nat → List MaskEmit
  | 0, _, _ => []
  | _ + 1, [], _ => []
  | fuel + 1, c :: rest, i =>
    if c.isMask then
      let run := rest.takeWhile (fun n => !n.isMask)
      let rest2 := rest.dropWhile (fun n => !n.isMask)
      let w : List MaskEmit :=
        match getClipPathFromMaskNode c with
        | some cp =>
          if run.length > 0 then
            [MaskEmit.wrapper c (wrapperBaseStyles c cp ++ extra c i) run]
          else []
        | none => []
      MaskEmit.maskItself c :: (w ++ maskRunGo extra fuel rest2 (i + 1 + run.length))
    else MaskEmit.plain c :: maskRunGo extra fuel rest (i + 1)

/-- The frame-children loop over a full sibling list. -/
def maskRunLoop (extra : MNode → Nat → List Str) (ns : List MNode) (i : Nat) :
    List MaskEmit :=
  maskRunGo extra ns.length ns i

/-- The multiset of siblings actually emitted, flattening wrappers. -/
def emitNodes : List MaskEmit → List MNode
  | [] => []
  | MaskEmit.plain n :: t => n :: emitNodes t
  | MaskEmit.maskItself n :: t => n :: emitNodes t
  | MaskEmit.wrapper _ _ ms :: t => ms ++ emitNodes t

/-- A plain (non-mask) rectangle sibling used in concrete runs. -/
def plainRect (i : Nat) : MNode :=
  ⟨i, false, .rectangle, some 0, 0, 0, 0, 0, 10, 10⟩

/-- A rectangle mask sibling used in concrete runs. -/
def rectMask (i : Nat) : MNode :=
  ⟨i, true, .rectangle, some 0, 0, 0, 0, 0, 40, 20⟩

/-- A vector mask sibling (unsupported clip shape) used in concrete runs. -/
def vectorMask (i : Nat) : MNode :=
  ⟨i, true, .vectorKind, some 0, 0, 0, 0, 0, 40, 20⟩

/-! ### Error propagation (`nodeToHtmlCss` vector branch, `figma.ui.onmessage`) -/

/-- Conversion-relevant node shapes for the error-flow model: a vector
node whose export either yields svg bytes or fails, a text leaf whose
optional mixed-fill segmentation call either yields per-segment markup or
fails, a container, and a node whose conversion raises an unexpected
error. The walker has exactly two local try/catch sites: around the
per-vector export and around the per-text `getStyledTextSegments` call
(`segments = none` models a text node whose fills are not mixed, so the
call is never made). -/
inductive ENode where
  | vec (exportResult : Except Str Str) (w : ℚ) (h : ℚ)
  | textNode (s : Str) (segments : Option (Except Str Str))
  | frameNode (children : List ENode)
  | raiseNode (msg : Str)

/-- The placeholder box substituted when a vector export fails. -/
def placeholderHtml (w h : ℚ) : Str :=
  "<div style=\x22width: ".data ++ qToStr w ++ "px; height: ".data ++ qToStr h ++
    "px; background: #e5e7eb\x22></div>".data

/-- Inlined svg markup for a successful vector export. -/
def svgHtml (svg : Str) : Str := "<div>".data ++ svg ++ "</div>".data

/-- Text markup. -/
def textHtml (s : Str) : Str := "<p>".data ++ s ++ "</p>".data

mutual

/-- The walker's error flow: the vector branch catches its own export
failure and emits the placeholder; the text branch catches its own
segmentation failure and falls back to the plain escaped characters;
everything else propagates. -/
def walkE : ENode → Except Str Str
  | .vec exportResult w h =>
    match exportResult with
    | .ok svg => .ok (svgHtml svg)
    | .error _ => .ok (placeholderHtml w h)
  | .textNode s segments =>
    match segments with
    | none => .ok (textHtml s)
    | some (.ok segHtml) => .ok (textHtml segHtml)
    | some (.error _) => .ok (textHtml s)
  | .frameNode cs =>
    match walkList cs with
    | .ok hs => .ok ("<div>".data ++ hs.flatten ++ "</div>".data)
    | .error e => .error e
  | .raiseNode msg => .error msg

/-- Sequential awaited conversion of children: the first rejection
propagates. -/
def walkList : List ENode → Except Str (List Str)
  | [] => .ok []
  | c :: cs =>
    match walkE c with
    | .error e => .error e
    | .ok h =>
      match walkList cs with
      | .error e => .error e
      | .ok hs => .ok (h :: hs)

end

mutual

/-- No descendant raises an unexpected error. -/
def noRaise : ENode → Bool
  | .vec _ _ _ => true
  | .textNode _ _ => true
  | .frameNode cs => noRaiseList cs
  | .raiseNode _ => false

/-- `noRaise` over a child list. -/
def noRaiseList : List ENode → Bool
  | [] => true
  | c :: cs => noRaise c && noRaiseList cs

end

/-- The message posted back to the UI. -/
inductive UiMsg where
  | exportResultMsg (payload : Str)
  | errorMsg (message : Str)
deriving DecidableEq

/-- The selection-error message thrown by `exportSelection`. -/
def selectionErrorMsg : Str :=
  "Select a frame, component, instance, or group.".data

/-- `exportSelection` reduced to its error flow: an ineligible selection
throws, otherwise the walker runs. -/
def exportSelectionE (selection : Option ENode) : Except Str Str :=
  match selection with
  | none => .error selectionErrorMsg
  | some root => walkE root

/-- The single top-level catch in `figma.ui.onmessage`: any error becomes
an error message to the caller. -/
def onMessageExport (selection : Option ENode) : UiMsg :=
  match exportSelectionE selection with
  | .ok r => .exportResultMsg r
  | .error e => .errorMsg e

/-! ### Visibility gate (`nodeToHtmlCss` entry) -/

/-- The node fields consumed before dispatch: the visibility flag and the
variant tag. -/
structure SkelNode where
  visible : Bool
  kind : MKind
deriving DecidableEq

/-- The dispatch skeleton of `nodeToHtmlCss`: the `visible === false`
gate precedes every branch and every context mutation; the per-variant
branch bodies are parameters. -/
def nodeToHtmlCssSkel
    (frameBranch groupBranch textBranch rectBranch ellipseBranch vectorBranch :
      SkelNode → ExportContext → Str × ExportContext)
    (node : SkelNode) (ctx : ExportContext) : Str × ExportContext :=
  if node.visible = false then ([], ctx)
  else
    match node.kind with
    | .frameKind | .componentKind | .instanceKind => frameBranch node ctx
    | .groupKind => groupBranch node ctx
    | .textKind => textBranch node ctx
    | .rectangle => rectBranch node ctx
    | .ellipseKind => ellipseBranch node ctx
    | .vectorKind => vectorBranch node ctx
    | .otherKind => ([], ctx)

/-! ## Helper lemmas -/

theorem map_id_of_mem {α : Type} {f : α → α} :
    ∀ {l : List α}, (∀ c ∈ l, f c = c) → l.map f = l
  | [], _ => rfl
  | c :: t, h => by
    simp only [List.map_cons, h c (List.mem_cons_self c t), List.cons.injEq, true_and]
    exact map_id_of_mem fun d hd => h d (List.mem_cons_of_mem _ hd)

theorem dropWhile_eq_self_of_all {α : Type} {p : α → Bool} {l : List α}
    (h : ∀ c ∈ l, p c = false) : l.dropWhile p = l := by
  cases l with
  | nil => rfl
  | cons c t =>
    exact List.dropWhile_cons_of_neg (by simp [h c (List.mem_cons_self c t)])

theorem head?_dropWhile_false {α : Type} {p : α → Bool} {l : List α} {a : α}
    (h : (l.dropWhile p).head? = some a) : p a = false := by
  have := List.head?_dropWhile_not p l
  rw [h] at this
  exact this

theorem dropWhile_dropWhile_self {α : Type} (p : α → Bool) (l : List α) :
    (l.dropWhile p).dropWhile p = l.dropWhile p := by
  cases hd : l.dropWhile p with
  | nil => rfl
  | cons a t =>
    have ha : p a = false := head?_dropWhile_false (by rw [hd]; rfl)
    exact List.dropWhile_cons_of_neg (by simp [ha])

theorem mem_of_mem_dropWhile {α : Type} {p : α → Bool} {l : List α} {c : α}
    (h : c ∈ l.dropWhile p) : c ∈ l :=
  (List.dropWhile_sublist p).subset h

theorem mem_of_mem_trimSpaces {s : Str} {c : Char} (h : c ∈ trimSpaces s) : c ∈ s := by
  unfold trimSpaces at h
  rw [List.mem_reverse] at h
  have := mem_of_mem_dropWhile h
  rw [List.mem_reverse] at this
  exact mem_of_mem_dropWhile this

theorem mem_of_mem_trimHyphens {s : Str} {c : Char} (h : c ∈ trimHyphens s) : c ∈ s := by
  unfold trimHyphens at h
  rw [List.mem_reverse] at h
  have := mem_of_mem_dropWhile h
  rw [List.mem_reverse] at this
  exact mem_of_mem_dropWhile this

theorem trimSpaces_eq_self {s : Str} (h : ∀ c ∈ s, ¬c = ' ') : trimSpaces s = s := by
  unfold trimSpaces
  have h1 : s.dropWhile (fun c => decide (c = ' ')) = s :=
    dropWhile_eq_self_of_all (fun c hc => by simp [h c hc])
  rw [h1]
  have h2 : s.reverse.dropWhile (fun c => decide (c = ' ')) = s.reverse :=
    dropWhile_eq_self_of_all (fun c hc => by simp [h c (List.mem_reverse.mp hc)])
  rw [h2, List.reverse_reverse]

theorem trimHyphens_eq_self {s : Str} (h : ∀ c ∈ s, ¬c = '-') : trimHyphens s = s := by
  unfold trimHyphens
  have h1 : s.dropWhile (fun c => decide (c = '-')) = s :=
    dropWhile_eq_self_of_all (fun c hc => by simp [h c hc])
  rw [h1]
  have h2 : s.reverse.dropWhile (fun c => decide (c = '-')) = s.reverse :=
    dropWhile_eq_self_of_all (fun c hc => by simp [h c (List.mem_reverse.mp hc)])
  rw [h2, List.reverse_reverse]

theorem dropWhile_eq_self_of_head {α : Type} {p : α → Bool} {l : List α}
    (h : ∀ a, l.head? = some a → p a = false) : l.dropWhile p = l := by
  cases l with
  | nil => rfl
  | cons c t => exact List.dropWhile_cons_of_neg (by simp [h c rfl])

theorem doubleTrim_idem {α : Type} (p : α → Bool) (s : List α) :
    ((((((s.dropWhile p).reverse.dropWhile p).reverse).dropWhile p).reverse).dropWhile p).reverse
      = ((s.dropWhile p).reverse.dropWhile p).reverse := by
  have hBd : ((s.dropWhile p).reverse.dropWhile p).dropWhile p =
      (s.dropWhile p).reverse.dropWhile p :=
    dropWhile_dropWhile_self p (s.dropWhile p).reverse
  have h1 : (((s.dropWhile p).reverse.dropWhile p).reverse).dropWhile p =
      ((s.dropWhile p).reverse.dropWhile p).reverse := by
    apply dropWhile_eq_self_of_head
    intro a ha
    have hpref0 : ((s.dropWhile p).reverse.dropWhile p).reverse <+:
        ((s.dropWhile p).reverse).reverse :=
      List.reverse_prefix.mpr (List.dropWhile_suffix p)
    have hpref : ((s.dropWhile p).reverse.dropWhile p).reverse <+: s.dropWhile p := by
      rwa [List.reverse_reverse] at hpref0
    obtain ⟨r, hr⟩ := hpref
    have hhead : (s.dropWhile p).head? = some a := by
      rw [← hr, List.head?_append, ha]; rfl
    exact head?_dropWhile_false hhead
  rw [h1, List.reverse_reverse, hBd]

theorem trimHyphens_idem (s : Str) : trimHyphens (trimHyphens s) = trimHyphens s :=
  doubleTrim_idem _ s

theorem collapseWs_cons_space (t : Str) :
    collapseWs (' ' :: t) = '-' :: collapseWs (t.dropWhile (fun d => decide (d = ' '))) := by
  simp [collapseWs]

theorem collapseWs_cons_other {c : Char} (hc : ¬c = ' ') (t : Str) :
    collapseWs (c :: t) = c :: collapseWs t := by
  simp [collapseWs, hc]

theorem collapseWs_nil : collapseWs [] = [] := by simp [collapseWs]

theorem collapseWs_no_space : ∀ (s : Str), ' ' ∉ collapseWs s := by
  intro s
  induction s using collapseWs.induct with
  | case1 => simp [collapseWs_nil]
  | case2 t ih =>
    rw [collapseWs_cons_space]
    simp only [List.mem_cons, not_or]
    exact ⟨by decide, ih⟩
  | case3 c t hc ih =>
    rw [collapseWs_cons_other hc]
    simp only [List.mem_cons, not_or]
    exact ⟨fun e => hc e.symm, ih⟩

theorem mem_collapseWs : ∀ (s : Str), ∀ c ∈ collapseWs s, c ∈ s ∨ c = '-' := by
  intro s
  induction s using collapseWs.induct with
  | case1 => simp [collapseWs_nil]
  | case2 t ih =>
    intro c hc
    rw [collapseWs_cons_space] at hc
    rcases List.mem_cons.mp hc with h | h
    · exact Or.inr h
    · rcases ih c h with h2 | h2
      · exact Or.inl (List.mem_cons_of_mem _ (mem_of_mem_dropWhile h2))
      · exact Or.inr h2
  | case3 d t hd ih =>
    intro c hc
    rw [collapseWs_cons_other hd] at hc
    rcases List.mem_cons.mp hc with h | h
    · exact Or.inl (h ▸ List.mem_cons_self d t)
    · rcases ih c h with h2 | h2
      · exact Or.inl (List.mem_cons_of_mem _ h2)
      · exact Or.inr h2

theorem collapseWs_eq_self : ∀ (s : Str), (∀ c ∈ s, ¬c = ' ') → collapseWs s = s := by
  intro s
  induction s using collapseWs.induct with
  | case1 => intro _; exact collapseWs_nil
  | case2 t ih =>
    intro h
    exact absurd rfl (h ' ' (List.mem_cons_self _ t))
  | case3 d t hd ih =>
    intro h
    rw [collapseWs_cons_other hd, ih (fun c hc => h c (List.mem_cons_of_mem _ hc))]

theorem asciiLower_fixed {c : Char} (h : isAllowedSan c = true) : asciiLower c = c := by
  unfold asciiLower
  rw [if_neg]
  rintro ⟨h1, h2⟩
  simp only [isAllowedSan, Bool.or_eq_true, Bool.and_eq_true, decide_eq_true_eq] at h
  rcases h with (((⟨ha, _⟩ | ⟨_, hb⟩) | rfl) | rfl) | rfl
  · exact absurd (le_trans ha h2) (by decide)
  · exact absurd (le_trans h1 hb) (by decide)
  · exact (by decide : ¬('A' ≤ '-' ∧ '-' ≤ 'Z')) ⟨h1, h2⟩
  · exact (by decide : ¬('A' ≤ '_' ∧ '_' ≤ 'Z')) ⟨h1, h2⟩
  · exact (by decide : ¬('A' ≤ ' ' ∧ ' ' ≤ 'Z')) ⟨h1, h2⟩

theorem sanitized_chars {x : Str} :
    ∀ c ∈ sanitizeName x, isAllowedSan c = true ∧ ¬c = ' ' := by
  intro c hc
  unfold sanitizeName at hc
  have h1 := mem_of_mem_trimHyphens hc
  have hns : ¬c = ' ' := fun e => collapseWs_no_space _ (e ▸ h1)
  rcases mem_collapseWs _ c h1 with h2 | h2
  · have h3 := mem_of_mem_trimSpaces h2
    exact ⟨List.of_mem_filter h3, hns⟩
  · exact ⟨by rw [h2]; decide, hns⟩

/-- C9: a string made of kept, non-space characters is a fixed point of
every stage of the sanitizer. -/
theorem sanitizeName_fixed_of_clean {y : Str}
    (h : ∀ c ∈ y, isAllowedSan c = true ∧ ¬c = ' ')
    (htrim : trimHyphens y = y) : sanitizeName y = y := by
  unfold sanitizeName
  rw [map_id_of_mem (fun c hc => asciiLower_fixed (h c hc).1),
    List.filter_eq_self.mpr (fun c hc => (h c hc).1),
    trimSpaces_eq_self (fun c hc => (h c hc).2),
    collapseWs_eq_self _ (fun c hc => (h c hc).2), htrim]

theorem escMapHtml_not_banned (c : Char) :
    '<' ∉ escMapHtml c ∧ '>' ∉ escMapHtml c ∧
      quoteCh ∉ escMapHtml c ∧ aposCh ∉ escMapHtml c := by
  unfold escMapHtml
  split_ifs with h1 h2 h3 h4 h5
  · decide
  · decide
  · decide
  · decide
  · decide
  · exact ⟨fun e => h2 (List.mem_singleton.mp e).symm,
      fun e => h3 (List.mem_singleton.mp e).symm,
      fun e => h4 (List.mem_singleton.mp e).symm,
      fun e => h5 (List.mem_singleton.mp e).symm⟩

theorem escMapJsx_not_banned (c : Char) :
    '<' ∉ escMapJsx c ∧ '>' ∉ escMapJsx c ∧
      lbraceCh ∉ escMapJsx c ∧ rbraceCh ∉ escMapJsx c := by
  unfold escMapJsx
  split_ifs with h1 h2 h3 h4 h5
  · decide
  · decide
  · decide
  · decide
  · decide
  · exact ⟨fun e => h2 (List.mem_singleton.mp e).symm,
      fun e => h3 (List.mem_singleton.mp e).symm,
      fun e => h4 (List.mem_singleton.mp e).symm,
      fun e => h5 (List.mem_singleton.mp e).symm⟩

theorem escapeHtml_cons (c : Char) (t : Str) :
    escapeHtml (c :: t) = escMapHtml c ++ escapeHtml t := rfl

theorem escapeJsxText_cons (c : Char) (t : Str) :
    escapeJsxText (c :: t) = escMapJsx c ++ escapeJsxText t := rfl

theorem escapeHtml_not_banned (s : Str) :
    '<' ∉ escapeHtml s ∧ '>' ∉ escapeHtml s ∧
      quoteCh ∉ escapeHtml s ∧ aposCh ∉ escapeHtml s := by
  induction s with
  | nil => decide
  | cons c t ih =>
    have hb := escMapHtml_not_banned c
    rw [escapeHtml_cons]
    simp only [List.mem_append, not_or]
    exact ⟨⟨hb.1, ih.1⟩, ⟨hb.2.1, ih.2.1⟩, ⟨hb.2.2.1, ih.2.2.1⟩, ⟨hb.2.2.2, ih.2.2.2⟩⟩

theorem escapeJsxText_not_banned (s : Str) :
    '<' ∉ escapeJsxText s ∧ '>' ∉ escapeJsxText s ∧
      lbraceCh ∉ escapeJsxText s ∧ rbraceCh ∉ escapeJsxText s := by
  induction s with
  | nil => decide
  | cons c t ih =>
    have hb := escMapJsx_not_banned c
    rw [escapeJsxText_cons]
    simp only [List.mem_append, not_or]
    exact ⟨⟨hb.1, ih.1⟩, ⟨hb.2.1, ih.2.1⟩, ⟨hb.2.2.1, ih.2.2.1⟩, ⟨hb.2.2.2, ih.2.2.2⟩⟩

theorem escMapJsx_count_quote (c : Char) :
    (escMapJsx c).count quoteCh = List.count quoteCh [c] := by
  unfold escMapJsx
  split_ifs with h1 h2 h3 h4 h5
  · subst h1; decide
  · subst h2; decide
  · subst h3; decide
  · subst h4; decide
  · subst h5; decide
  · rfl

theorem escMapJsx_count_apos (c : Char) :
    (escMapJsx c).count aposCh = List.count aposCh [c] := by
  unfold escMapJsx
  split_ifs with h1 h2 h3 h4 h5
  · subst h1; decide
  · subst h2; decide
  · subst h3; decide
  · subst h4; decide
  · subst h5; decide
  · rfl

theorem escapeJsxText_count_quote (s : Str) :
    (escapeJsxText s).count quoteCh = s.count quoteCh := by
  induction s with
  | nil => rfl
  | cons c t ih =>
    rw [escapeJsxText_cons, List.count_append, escMapJsx_count_quote, ih]
    simp [List.count_cons, Nat.add_comm]

theorem escapeJsxText_count_apos (s : Str) :
    (escapeJsxText s).count aposCh = s.count aposCh := by
  induction s with
  | nil => rfl
  | cons c t ih =>
    rw [escapeJsxText_cons, List.count_append, escMapJsx_count_apos, ih]
    simp [List.count_cons, Nat.add_comm]

mutual

theorem walkE_total : ∀ (t : ENode), noRaise t = true → ∃ html, walkE t = Except.ok html
  | .vec exportResult w h, _ => by
    cases exportResult with
    | ok s => exact ⟨svgHtml s, rfl⟩
    | error e => exact ⟨placeholderHtml w h, rfl⟩
  | .textNode s segments, _ => by
    match segments with
    | none => exact ⟨textHtml s, rfl⟩
    | some (.ok segHtml) => exact ⟨textHtml segHtml, rfl⟩
    | some (.error e) => exact ⟨textHtml s, rfl⟩
  | .frameNode cs, h => by
    obtain ⟨hs, hh⟩ := walkList_total cs (by simpa [noRaise] using h)
    exact ⟨_, by rw [walkE, hh]⟩
  | .raiseNode m, h => by simp [noRaise] at h

theorem walkList_total : ∀ (cs : List ENode), noRaiseList cs = true →
    ∃ hs, walkList cs = Except.ok hs
  | [], _ => ⟨[], rfl⟩
  | c :: cs, h => by
    rw [noRaiseList, Bool.and_eq_true] at h
    obtain ⟨h1, hh1⟩ := walkE_total c h.1
    obtain ⟨hs, hh2⟩ := walkList_total cs h.2
    exact ⟨_, by rw [walkList, hh1, hh2]⟩

end

theorem takeWhile_nil_dropWhile {α : Type} {p : α → Bool} {l : List α}
    (h : l.takeWhile p = []) : l.dropWhile p = l := by
  cases l with
  | nil => rfl
  | cons c t =>
    rw [List.takeWhile_cons] at h
    by_cases hc : p c
    · rw [if_pos hc] at h; cases h
    · exact List.dropWhile_cons_of_neg hc

theorem emitNodes_cons_plain (n : MNode) (t : List MaskEmit) :
    emitNodes (MaskEmit.plain n :: t) = n :: emitNodes t := rfl

theorem emitNodes_cons_mask (n : MNode) (t : List MaskEmit) :
    emitNodes (MaskEmit.maskItself n :: t) = n :: emitNodes t := rfl

theorem emitNodes_cons_wrapper (m : MNode) (st : List Str) (ms : List MNode)
    (t : List MaskEmit) :
    emitNodes (MaskEmit.wrapper m st ms :: t) = ms ++ emitNodes t := rfl

theorem emitNodes_maskRunGo (extra : MNode → Nat → List Str) :
    ∀ (fuel : Nat) (ns : List MNode) (i : Nat), ns.length ≤ fuel →
    (∀ n ∈ ns, n.isMask = true → (getClipPathFromMaskNode n).isSome = true) →
    emitNodes (maskRunGo extra fuel ns i) = ns := by
  intro fuel
  induction fuel with
  | zero =>
    intro ns i h _
    rw [Nat.le_zero, List.length_eq_zero] at h
    subst h
    rfl
  | succ fuel ih =>
    intro ns i hlen hclip
    cases ns with
    | nil => rfl
    | cons c rest =>
      have hrest : rest.length ≤ fuel := by
        simp only [List.length_cons] at hlen; omega
      by_cases hm : c.isMask
      · rw [maskRunGo, if_pos hm]
        have hrest2 : (rest.dropWhile (fun n => !n.isMask)).length ≤ fuel :=
          le_trans (List.dropWhile_sublist _).length_le hrest
        have hclip2 : ∀ n ∈ rest.dropWhile (fun n => !n.isMask), n.isMask = true →
            (getClipPathFromMaskNode n).isSome = true :=
          fun n hn => hclip n (List.mem_cons_of_mem _ (mem_of_mem_dropWhile hn))
        have hrec := ih (rest.dropWhile (fun n => !n.isMask))
          (i + 1 + (rest.takeWhile (fun n => !n.isMask)).length) hrest2 hclip2
        obtain ⟨cp, hcp⟩ := Option.isSome_iff_exists.mp
          (hclip c (List.mem_cons_self c rest) hm)
        rw [hcp]
        dsimp only
        by_cases hlen0 : (rest.takeWhile (fun n => !n.isMask)).length > 0
        · rw [if_pos hlen0, emitNodes_cons_mask, List.singleton_append,
            emitNodes_cons_wrapper, hrec, List.takeWhile_append_dropWhile]
        · have htw : rest.takeWhile (fun n => !n.isMask) = [] := by
            rw [← List.length_eq_zero]; omega
          rw [if_neg hlen0]
          simp only [List.nil_append, emitNodes_cons_mask]
          rw [takeWhile_nil_dropWhile htw] at hrec
          rw [takeWhile_nil_dropWhile htw, hrec]
      · rw [maskRunGo, if_neg hm, emitNodes_cons_plain,
          ih rest (i + 1) hrest (fun n hn => hclip n (List.mem_cons_of_mem _ hn))]

theorem maskItself_mem_maskRunGo (extra : MNode → Nat → List Str) :
    ∀ (fuel : Nat) (ns : List MNode) (i : Nat) (n : MNode), ns.length ≤ fuel →
    n ∈ ns → n.isMask = true → MaskEmit.maskItself n ∈ maskRunGo extra fuel ns i := by
  intro fuel
  induction fuel with
  | zero =>
    intro ns i n h hn _
    rw [Nat.le_zero, List.length_eq_zero] at h
    subst h
    cases hn
  | succ fuel ih =>
    intro ns i n hlen hn hmask
    cases ns with
    | nil => cases hn
    | cons c rest =>
      have hrest : rest.length ≤ fuel := by
        simp only [List.length_cons] at hlen; omega
      by_cases hm : c.isMask
      · rw [maskRunGo, if_pos hm]
        dsimp only
        rcases List.mem_cons.mp hn with rfl | hn2
        · exact List.mem_cons_self _ _
        · -- a mask node in the tail is never swallowed by the run
          have hnotrun : n ∉ rest.takeWhile (fun x => !x.isMask) := by
            intro hin
            have := List.mem_takeWhile_imp hin
            rw [hmask] at this
            cases this
          have hn3 : n ∈ rest.dropWhile (fun x => !x.isMask) := by
            have hsplit := List.takeWhile_append_dropWhile
              (fun x => !x.isMask) (l := rest)
            rw [← hsplit] at hn2
            rcases List.mem_append.mp hn2 with h | h
            · exact absurd h hnotrun
            · exact h
          have hrest2 : (rest.dropWhile (fun x => !x.isMask)).length ≤ fuel :=
            le_trans (List.dropWhile_sublist _).length_le hrest
          exact List.mem_cons_of_mem _ (List.mem_append_right _
            (ih _ _ n hrest2 hn3 hmask))
      · rw [maskRunGo, if_neg hm]
        rcases List.mem_cons.mp hn with rfl | hn2
        · rw [hmask] at hm; cases hm rfl
        · exact List.mem_cons_of_mem _ (ih rest (i + 1) n hrest hn2 hmask)

theorem wrapper_mem_maskRunGo (extra : MNode → Nat → List Str) :
    ∀ (fuel : Nat) (ns : List MNode) (i : Nat) (m : MNode) (st : List Str)
      (ms : List MNode), ns.length ≤ fuel →
    MaskEmit.wrapper m st ms ∈ maskRunGo extra fuel ns i →
    m.isMask = true ∧ ms ≠ [] ∧ (∀ n ∈ ms, n.isMask = false) ∧
      (∃ cp, getClipPathFromMaskNode m = some cp ∧
        ∃ j, st = wrapperBaseStyles m cp ++ extra m j) ∧
      ∃ pre post, ns = pre ++ m :: (ms ++ post) ∧
        (post = [] ∨ ∃ p ps, post = p :: ps ∧ p.isMask = true) := by
  intro fuel
  induction fuel with
  | zero =>
    intro ns i m st ms h hmem
    rw [Nat.le_zero, List.length_eq_zero] at h
    subst h
    cases hmem
  | succ fuel ih =>
    intro ns i m st ms hlen hmem
    cases ns with
    | nil => cases hmem
    | cons c rest =>
      have hrest : rest.length ≤ fuel := by
        simp only [List.length_cons] at hlen; omega
      have hrest2 : (rest.dropWhile (fun x => !x.isMask)).length ≤ fuel :=
        le_trans (List.dropWhile_sublist _).length_le hrest
      by_cases hm : c.isMask
      · rw [maskRunGo, if_pos hm] at hmem
        dsimp only at hmem
        rcases List.mem_cons.mp hmem with heq | hmem2
        · cases heq
        · rcases List.mem_append.mp hmem2 with hw | hrec
          · -- the wrapper emitted for `c` itself
            rcases hcp : getClipPathFromMaskNode c with _ | cp
            · rw [hcp] at hw; cases hw
            · rw [hcp] at hw
              dsimp only at hw
              by_cases hlen0 : (rest.takeWhile (fun x => !x.isMask)).length > 0
              · rw [if_pos hlen0, List.mem_singleton] at hw
                injection hw with e1 e2 e3
                subst e1; subst e2; subst e3
                refine ⟨hm, ?_, ?_, ⟨cp, hcp, i, rfl⟩, [], rest.dropWhile (fun x => !x.isMask),
                  ?_, ?_⟩
                · intro he; rw [he] at hlen0; simp at hlen0
                · intro n hn
                  have := List.mem_takeWhile_imp hn
                  simpa using this
                · rw [List.nil_append, List.takeWhile_append_dropWhile]
                · cases hd : rest.dropWhile (fun x => !x.isMask) with
                  | nil => exact Or.inl rfl
                  | cons p ps =>
                    refine Or.inr ⟨p, ps, rfl, ?_⟩
                    have := head?_dropWhile_false (p := fun x => !x.isMask)
                      (l := rest) (a := p) (by rw [hd]; rfl)
                    simpa using this
              · rw [if_neg hlen0] at hw; cases hw
          · obtain ⟨h1, h2, h3, h4, pre, post, h5, h6⟩ := ih _ _ m st ms hrest2 hrec
            refine ⟨h1, h2, h3, h4,
              c :: (rest.takeWhile (fun x => !x.isMask)) ++ pre, post, ?_, h6⟩
            have hsplit := List.takeWhile_append_dropWhile (fun x => !x.isMask) (l := rest)
            conv_lhs => rw [← hsplit]
            rw [h5]
            simp [List.append_assoc]
      · rw [maskRunGo, if_neg hm] at hmem
        rcases List.mem_cons.mp hmem with heq | hmem2
        · cases heq
        · obtain ⟨h1, h2, h3, h4, pre, post, h5, h6⟩ := ih _ _ m st ms hrest hmem2
          exact ⟨h1, h2, h3, h4, c :: pre, post, by rw [h5, List.cons_append], h6⟩

theorem natToStrAux_eq (fuel : Nat) : ∀ n : Nat, n ≤ fuel →
    natToStrAux fuel n = ((Nat.digits 10 n).map digitCh).reverse := by
  induction fuel with
  | zero =>
    intro n hn
    have : n = 0 := by omega
    subst this
    simp [natToStrAux]
  | succ fuel ih =>
    intro n hn
    by_cases h0 : n = 0
    · subst h0; simp [natToStrAux]
    · rw [natToStrAux, if_neg h0,
        Nat.digits_def' (by norm_num : (1 : ℕ) < 10) (Nat.pos_of_ne_zero h0),
        List.map_cons, List.reverse_cons]
      have hdiv : n / 10 ≤ fuel := by
        have := Nat.div_lt_self (Nat.pos_of_ne_zero h0) (by norm_num : (1 : ℕ) < 10)
        omega
      rw [ih (n / 10) hdiv]

theorem natToStr_eq_digits (n : Nat) :
    natToStr n = if n = 0 then ['0'] else ((Nat.digits 10 n).map digitCh).reverse := by
  unfold natToStr
  split_ifs with h
  · rfl
  · exact natToStrAux_eq n n le_rfl

theorem digitCh_inj_lt : ∀ d < 10, ∀ e < 10, digitCh d = digitCh e → d = e := by decide

theorem digitCh_isDigit_lt : ∀ d < 10, (digitCh d).isDigit = true := by decide

theorem map_digitCh_inj : ∀ (l₁ l₂ : List Nat), (∀ x ∈ l₁, x < 10) →
    (∀ x ∈ l₂, x < 10) → l₁.map digitCh = l₂.map digitCh → l₁ = l₂ := by
  intro l₁
  induction l₁ with
  | nil =>
    intro l₂ _ _ h
    cases l₂ with
    | nil => rfl
    | cons b t => cases h
  | cons a t ih =>
    intro l₂ h1 h2 h
    cases l₂ with
    | nil => cases h
    | cons b u =>
      simp only [List.map_cons, List.cons.injEq] at h
      have ha : a = b := digitCh_inj_lt a (h1 a (List.mem_cons_self a t)) b
        (h2 b (List.mem_cons_self b u)) h.1
      rw [ha, ih u (fun x hx => h1 x (List.mem_cons_of_mem _ hx))
        (fun x hx => h2 x (List.mem_cons_of_mem _ hx)) h.2]

theorem natToStr_repr_ne_zero {m : Nat} (hm : ¬m = 0) :
    ((Nat.digits 10 m).map digitCh).reverse ≠ ['0'] := by
  intro h
  have h2 : (Nat.digits 10 m).map digitCh = ['0'] := by
    have := congrArg List.reverse h
    simpa using this
  have hlen : (Nat.digits 10 m).length = 1 := by
    have := congrArg List.length h2
    simpa using this
  obtain ⟨d, hd⟩ := List.length_eq_one.mp hlen
  rw [hd] at h2
  simp only [List.map_cons, List.map_nil, List.cons.injEq, and_true] at h2
  have hdlt : d < 10 := Nat.digits_lt_base (by norm_num)
    (by rw [hd]; exact List.mem_singleton.mpr rfl)
  have hd0 : d = 0 := digitCh_inj_lt d hdlt 0 (by norm_num) (by rw [h2]; rfl)
  have ho := (Nat.ofDigits_digits 10 m).symm
  rw [hd, hd0] at ho
  simp [Nat.ofDigits] at ho
  exact hm ho

theorem natToStr_inj {n m : Nat} (h : natToStr n = natToStr m) : n = m := by
  rw [natToStr_eq_digits, natToStr_eq_digits] at h
  by_cases hn : n = 0 <;> by_cases hm : m = 0
  · omega
  · rw [if_pos hn, if_neg hm] at h
    exact absurd h.symm (natToStr_repr_ne_zero hm)
  · rw [if_neg hn, if_pos hm] at h
    exact absurd h (natToStr_repr_ne_zero hn)
  · rw [if_neg hn, if_neg hm] at h
    have h2 := List.reverse_injective h
    have h3 := map_digitCh_inj _ _
      (fun x hx => Nat.digits_lt_base (by norm_num) hx)
      (fun x hx => Nat.digits_lt_base (by norm_num) hx) h2
    have := congrArg (Nat.ofDigits 10) h3
    rwa [Nat.ofDigits_digits, Nat.ofDigits_digits] at this

theorem natToStr_ne_nil (n : Nat) : natToStr n ≠ [] := by
  rw [natToStr_eq_digits]
  split_ifs with h
  · exact List.cons_ne_nil _ _
  · intro he
    have := congrArg List.length he
    simp only [List.length_reverse, List.length_map, List.length_nil] at this
    exact (Nat.digits_ne_nil_iff_ne_zero.mpr h) (List.length_eq_zero.mp this)

theorem natToStr_all_digit (n : Nat) : ∀ c ∈ natToStr n, c.isDigit = true := by
  rw [natToStr_eq_digits]
  split_ifs with h
  · intro c hc
    rw [List.mem_singleton.mp hc]
    decide
  · intro c hc
    rw [List.mem_reverse] at hc
    obtain ⟨d, hd, rfl⟩ := List.mem_map.mp hc
    exact digitCh_isDigit_lt d (Nat.digits_lt_base (by norm_num) hd)

theorem mkName_inj_fixed (b : Str) {k k' : Nat} (hk : 1 ≤ k) (hk' : 1 ≤ k')
    (h : mkName b k = mkName b k') : k = k' := by
  unfold mkName at h
  by_cases h1 : k = 1 <;> by_cases h2 : k' = 1
  · omega
  · rw [if_pos h1, if_neg h2] at h
    have := congrArg List.length h
    simp [List.length_append] at this
  · rw [if_neg h1, if_pos h2] at h
    have := congrArg List.length h
    simp [List.length_append] at this
  · rw [if_neg h1, if_neg h2] at h
    have h3 := List.append_cancel_left h
    injection h3 with _ h4
    exact natToStr_inj h4

theorem alistGet_set_self {β : Type} (m : List (Str × β)) (k : Str) (v : β) :
    alistGet (alistSet m k v) k = some v := by
  induction m with
  | nil => simp [alistSet, alistGet]
  | cons p t ih =>
    by_cases hp : p.1 = k
    · rw [alistSet, if_pos hp, alistGet, if_pos rfl]
    · rw [alistSet, if_neg hp, alistGet, if_neg hp, ih]

theorem alistGet_set_ne {β : Type} (m : List (Str × β)) {k k' : Str} (v : β)
    (h : ¬k' = k) : alistGet (alistSet m k v) k' = alistGet m k' := by
  induction m with
  | nil => simp [alistSet, alistGet, show ¬k = k' from fun e => h e.symm]
  | cons p t ih =>
    by_cases hp : p.1 = k
    · simp [alistSet, hp, alistGet, show ¬k = k' from fun e => h e.symm]
    · simp [alistSet, hp, alistGet, ih]

theorem cnt_getUniqueClassName (b : Str) (ctx : ExportContext) :
    cnt (getUniqueClassName b ctx).2 b = cnt ctx b + 1 := by
  simp [getUniqueClassName, cnt, alistGet_set_self]

theorem uniqueNames_eq (b : Str) : ∀ (n : Nat) (ctx : ExportContext),
    uniqueNames b n ctx = (List.range n).map (fun i => mkName b (cnt ctx b + i + 1)) := by
  intro n
  induction n with
  | zero => intro ctx; rfl
  | succ n ih =>
    intro ctx
    rw [uniqueNames]
    rw [ih]
    have hf : (getUniqueClassName b ctx).1 = mkName b (cnt ctx b + 1) := rfl
    rw [hf, cnt_getUniqueClassName, List.range_succ_eq_map, List.map_cons, List.map_map]
    congr 1
    apply List.map_congr_left
    intro i _
    simp only [Function.comp]
    exact congrArg (mkName b) (by omega)

theorem gapPref_head_ne {d : Char} (hd : ¬d = 'g') (t : Str) :
    "gap-".data.isPrefixOf (d :: t) = false := by
  rw [show "gap-".data = 'g' :: "ap-".data from rfl, List.isPrefixOf_cons₂]
  have hb : ('g' == d) = false := beq_eq_false_iff_ne.mpr (fun h => hd h.symm)
  rw [hb, Bool.false_and]

theorem gapPref_self (t : Str) : "gap-".data.isPrefixOf ("gap-".data ++ t) = true :=
  List.isPrefixOf_iff_prefix.mpr (List.prefix_append _ _)

theorem flexWrapBlock_no_gap (frame : FlexFrame) (ctx2 : ExportContext) :
    ∀ c ∈ (flexWrapBlock frame ctx2).1, "gap-".data.isPrefixOf c = false := by
  intro c hc
  unfold flexWrapBlock at hc
  dsimp only at hc
  split_ifs at hc <;> dsimp only at hc <;>
    simp only [List.mem_cons, List.mem_append, List.mem_singleton,
      List.not_mem_nil, or_false, false_or] at hc <;>
    (repeat' rcases hc with hc | hc) <;>
    first
    | decide
    | exact gapPref_head_ne (by decide) _

theorem flexPadBlock_no_gap (frame : FlexFrame) (ctx4 : ExportContext) :
    ∀ c ∈ (flexPadBlock frame ctx4).1, "gap-".data.isPrefixOf c = false := by
  intro c hc
  unfold flexPadBlock at hc
  dsimp only at hc
  split_ifs at hc <;> dsimp only at hc <;>
    simp only [List.mem_cons, List.mem_append, List.mem_singleton,
      List.not_mem_nil, or_false, false_or] at hc <;>
    (repeat' rcases hc with hc | hc) <;>
    exact gapPref_head_ne (by decide) _

theorem justifyClassOf_no_gap (a : AxisAlign) :
    "gap-".data.isPrefixOf (justifyClassOf a) = false := by
  cases a <;> decide

theorem itemsClassOf_no_gap (a : CounterAlign) :
    "gap-".data.isPrefixOf (itemsClassOf a) = false := by
  cases a <;> decide

theorem flexGapBlock_classes (frame : FlexFrame) (ctx3 : ExportContext) :
    (flexGapBlock frame ctx3).1 =
      if frame.primaryAxisAlignItems = .spaceBetween then []
      else ["gap-".data ++ formatNegativeClassValue frame.itemSpacing] := by
  unfold flexGapBlock
  split_ifs <;> rfl

theorem registerUtilityClass_mem_preserved {x cls : Str} {lines : List Str}
    {ctx : ExportContext} (h : x ∈ ctx.utilityClasses) :
    x ∈ (registerUtilityClass cls lines ctx).utilityClasses := by
  unfold registerUtilityClass
  split_ifs
  · exact h
  · exact List.mem_append_left _ h

theorem registerUtilityClass_mem_self (cls : Str) (lines : List Str)
    (ctx : ExportContext) :
    cls ∈ (registerUtilityClass cls lines ctx).utilityClasses := by
  unfold registerUtilityClass
  split_ifs with h
  · exact h
  · exact List.mem_append_right _ (List.mem_singleton.mpr rfl)

theorem flexPadBlock_mem_preserved (frame : FlexFrame) {x : Str}
    {ctx : ExportContext} (h : x ∈ ctx.utilityClasses) :
    x ∈ (flexPadBlock frame ctx).2.utilityClasses := by
  unfold flexPadBlock
  split_ifs <;> dsimp only <;>
    solve_by_elim [registerUtilityClass_mem_preserved]

theorem alistGet_none_forall {β : Type} : ∀ {m : List (Str × β)} {k : Str},
    alistGet m k = none → ∀ p ∈ m, ¬p.1 = k := by
  intro m
  induction m with
  | nil => intro k _ p hp; cases hp
  | cons q t ih =>
    intro k h p hp
    rw [alistGet] at h
    by_cases hq : q.1 = k
    · rw [if_pos hq] at h; cases h
    · rw [if_neg hq] at h
      rcases List.mem_cons.mp hp with rfl | hp
      · exact hq
      · exact ih h p hp

theorem alistSet_append {β : Type} : ∀ {m : List (Str × β)} {k : Str} (v : β),
    (∀ p ∈ m, ¬p.1 = k) → alistSet m k v = m ++ [(k, v)] := by
  intro m
  induction m with
  | nil => intro k v _; rfl
  | cons q t ih =>
    intro k v h
    rw [alistSet, if_neg (h q (List.mem_cons_self q t)), List.cons_append,
      ih v (fun p hp => h p (List.mem_cons_of_mem q hp))]

theorem alistGet_mem {β : Type} : ∀ {m : List (Str × β)} {k : Str} {v : β},
    alistGet m k = some v → (k, v) ∈ m := by
  intro m
  induction m with
  | nil => intro k v h; cases h
  | cons q t ih =>
    intro k v h
    rw [alistGet] at h
    by_cases hq : q.1 = k
    · rw [if_pos hq] at h
      injection h with h
      rw [← hq, ← h]
      exact List.mem_cons_self _ _
    · rw [if_neg hq] at h
      exact List.mem_cons_of_mem q (ih h)

theorem cssWrap_inj_body {c s t : Str} (h : cssWrap c s = cssWrap c t) : s = t := by
  unfold cssWrap at h
  injection h with hh h
  exact List.append_cancel_left (List.append_cancel_right h)

theorem takeWhile_append_not {p : Char → Bool} : ∀ (l₁ : Str) (b : Char) (l₂ : Str),
    (∀ a ∈ l₁, p a = true) → p b = false →
    (l₁ ++ b :: l₂).takeWhile p = l₁ := by
  intro l₁
  induction l₁ with
  | nil => intro b l₂ _ hb; simp [List.takeWhile_cons, hb]
  | cons a t ih =>
    intro b l₂ h hb
    rw [List.cons_append, List.takeWhile_cons, if_pos (h a (List.mem_cons_self a t)),
      ih b l₂ (fun x hx => h x (List.mem_cons_of_mem a hx)) hb]

theorem endsDashDigits_append (pre : Str) (n : Nat) :
    endsDashDigits (pre ++ '-' :: natToStr n) = true := by
  unfold endsDashDigits splitDashDigits
  have hrev : (pre ++ '-' :: natToStr n).reverse =
      (natToStr n).reverse ++ '-' :: pre.reverse := by
    simp [List.reverse_append, List.reverse_cons, List.append_assoc]
  rw [hrev]
  dsimp only
  have htw : ((natToStr n).reverse ++ '-' :: pre.reverse).takeWhile Char.isDigit
      = (natToStr n).reverse :=
    takeWhile_append_not _ _ _
      (fun a ha => natToStr_all_digit n a (List.mem_reverse.mp ha)) (by decide)
  rw [htw]
  have hne : ((natToStr n).reverse.isEmpty = true) → False := by
    simp [natToStr_ne_nil]
  rw [if_neg hne, List.drop_left]
  simp

theorem mkName_inj {b b' : Str} {k k' : Nat} (hb : endsDashDigits b = false)
    (hb' : endsDashDigits b' = false) (hk : 1 ≤ k) (hk' : 1 ≤ k')
    (h : mkName b k = mkName b' k') : b = b' ∧ k = k' := by
  unfold mkName at h
  by_cases h1 : k = 1 <;> by_cases h2 : k' = 1
  · rw [if_pos h1, if_pos h2] at h; exact ⟨h, by omega⟩
  · rw [if_pos h1, if_neg h2] at h
    rw [h, endsDashDigits_append] at hb
    cases hb
  · rw [if_neg h1, if_pos h2] at h
    rw [← h, endsDashDigits_append] at hb'
    cases hb'
  · rw [if_neg h1, if_neg h2] at h
    rcases List.append_eq_append_iff.mp h with ⟨a', ha1, ha2⟩ | ⟨c', hc1, hc2⟩
    · cases a' with
      | nil =>
        rw [List.append_nil] at ha1
        rw [List.nil_append] at ha2
        injection ha2 with _ htl
        exact ⟨ha1.symm, natToStr_inj htl⟩
      | cons x xs =>
        rw [List.cons_append] at ha2
        injection ha2 with _ htl
        have hmem : '-' ∈ natToStr k := by
          rw [htl]; exact List.mem_append_right _ (List.mem_cons_self _ _)
        exact absurd (natToStr_all_digit k '-' hmem) (by decide)
    · cases c' with
      | nil =>
        rw [List.append_nil] at hc1
        rw [List.nil_append] at hc2
        injection hc2 with _ htl
        exact ⟨hc1, (natToStr_inj htl).symm⟩
      | cons x xs =>
        rw [List.cons_append] at hc2
        injection hc2 with _ htl
        have hmem : '-' ∈ natToStr k' := by
          rw [htl]; exact List.mem_append_right _ (List.mem_cons_self _ _)
        exact absurd (natToStr_all_digit k' '-' hmem) (by decide)

theorem getClassForStyle_hit {bn : Str} {lines : List Str} {ctx : ExportContext} {c : Str}
    (h : alistGet ctx.styleMap (joinNl lines) = some c) :
    getClassForStyle bn lines ctx = (c, ctx) := by
  simp only [getClassForStyle, h]

theorem getClassForStyle_miss {bn : Str} {lines : List Str} {ctx : ExportContext}
    (h : alistGet ctx.styleMap (joinNl lines) = none) :
    getClassForStyle bn lines ctx =
      (mkName bn (cnt ctx bn + 1),
       { ctx with
          nameCounts := alistSet ctx.nameCounts bn (cnt ctx bn + 1)
          styleMap := alistSet ctx.styleMap (joinNl lines) (mkName bn (cnt ctx bn + 1))
          styleEntries := ctx.styleEntries ++
            [⟨mkName bn (cnt ctx bn + 1), bn, trailingSuffix (mkName bn (cnt ctx bn + 1)),
              cssWrap (mkName bn (cnt ctx bn + 1)) (joinNl lines)⟩] }) := by
  simp only [getClassForStyle, h, getUniqueClassName, cnt]

theorem smGet_step {bn : Str} {lines : List Str} {ctx : ExportContext} {s c : Str}
    (h : alistGet ctx.styleMap s = some c) :
    alistGet (getClassForStyle bn lines ctx).2.styleMap s = some c := by
  cases hm : alistGet ctx.styleMap (joinNl lines) with
  | some e => rw [getClassForStyle_hit hm]; exact h
  | none =>
    rw [getClassForStyle_miss hm]
    dsimp only
    rw [alistGet_set_ne _ _ (fun e => by rw [e] at h; rw [hm] at h; exact Option.noConfusion h)]
    exact h

theorem binding_step (bn : Str) (lines : List Str) (ctx : ExportContext) :
    alistGet (getClassForStyle bn lines ctx).2.styleMap (joinNl lines) =
      some (getClassForStyle bn lines ctx).1 := by
  cases hm : alistGet ctx.styleMap (joinNl lines) with
  | some e => rw [getClassForStyle_hit hm]; exact hm
  | none =>
    rw [getClassForStyle_miss hm]
    dsimp only
    exact alistGet_set_self _ _ _

theorem runReqs_cons (r : Req) (rs : List Req) (ctx : ExportContext) :
    runReqs (r :: rs) ctx =
      ((getClassForStyle r.1 r.2 ctx).1 ::
        (runReqs rs (getClassForStyle r.1 r.2 ctx).2).1,
       (runReqs rs (getClassForStyle r.1 r.2 ctx).2).2) := rfl

theorem runReqs_length : ∀ (rs : List Req) (ctx : ExportContext),
    (runReqs rs ctx).1.length = rs.length := by
  intro rs
  induction rs with
  | nil => intro ctx; rfl
  | cons r rs ih =>
    intro ctx
    rw [runReqs_cons]
    dsimp only
    rw [List.length_cons, ih, List.length_cons]

theorem runReqs_smGet_mono : ∀ (rs : List Req) (ctx : ExportContext) {s c : Str},
    alistGet ctx.styleMap s = some c →
    alistGet (runReqs rs ctx).2.styleMap s = some c := by
  intro rs
  induction rs with
  | nil => intro ctx s c h; exact h
  | cons r rs ih =>
    intro ctx s c h
    rw [runReqs_cons]
    exact ih _ (smGet_step h)

theorem runReqs_binding : ∀ (rs : List Req) (ctx : ExportContext) (k : Nat),
    k < rs.length →
    alistGet (runReqs rs ctx).2.styleMap (joinNl (rs.getD k ([], [])).2) =
      some ((runReqs rs ctx).1.getD k []) := by
  intro rs
  induction rs with
  | nil => intro ctx k hk; simp at hk
  | cons r rs ih =>
    intro ctx k hk
    cases k with
    | zero =>
      simp only [runReqs_cons, List.getD_cons_zero]
      exact runReqs_smGet_mono rs _ (binding_step r.1 r.2 ctx)
    | succ k =>
      simp only [runReqs_cons, List.getD_cons_succ]
      exact ih _ k (by simpa using hk)

theorem entriesForSig_push (s : Str) (ctx : ExportContext) (e : StyleEntry)
    (nc : List (Str × Nat)) (sm : List (Str × Str)) :
    entriesForSig s
      { ctx with
        nameCounts := nc
        styleMap := sm
        styleEntries := ctx.styleEntries ++ [e] } =
      entriesForSig s ctx ++ (if e.cssText = cssWrap e.className s then [e] else []) := by
  unfold entriesForSig
  dsimp only
  rw [List.filter_append]
  congr 1
  by_cases hp : e.cssText = cssWrap e.className s
  · rw [if_pos hp]; simp [List.filter, hp]
  · rw [if_neg hp]; simp [List.filter, hp]

theorem sigINV_init (s : Str) : SigINV s initContext := by
  constructor
  · intro _; rfl
  · show (entriesForSig s initContext).length ≤ 1
    simp [entriesForSig, initContext]

theorem sigINV_step (bn : Str) (lines : List Str) {ctx : ExportContext} (s : Str)
    (h : SigINV s ctx) : SigINV s (getClassForStyle bn lines ctx).2 := by
  obtain ⟨h1, h2⟩ := h
  cases hm : alistGet ctx.styleMap (joinNl lines) with
  | some c => rw [getClassForStyle_hit hm]; exact ⟨h1, h2⟩
  | none =>
    rw [getClassForStyle_miss hm]
    dsimp only
    by_cases hs : joinNl lines = s
    · constructor
      · intro hnone
        dsimp only at hnone
        rw [← hs, alistGet_set_self] at hnone
        exact Option.noConfusion hnone
      · rw [entriesForSig_push, h1 (by rw [← hs]; exact hm), List.nil_append]
        split_ifs with hcc
        · exact le_rfl
        · exact Nat.zero_le 1
    · constructor
      · intro hnone
        dsimp only at hnone
        rw [alistGet_set_ne _ _ (fun e => hs e.symm)] at hnone
        rw [entriesForSig_push, h1 hnone, List.nil_append]
        rw [if_neg (fun hcc => hs (cssWrap_inj_body hcc))]
      · rw [entriesForSig_push, if_neg (fun hcc => hs (cssWrap_inj_body hcc)),
          List.append_nil]
        exact h2

theorem sigINV_run : ∀ (rs : List Req) (ctx : ExportContext) (s : Str),
    SigINV s ctx → SigINV s (runReqs rs ctx).2 := by
  intro rs
  induction rs with
  | nil => intro ctx s h; exact h
  | cons r rs ih =>
    intro ctx s h
    rw [runReqs_cons]
    exact ih _ s (sigINV_step r.1 r.2 s h)

theorem regINV_init : RegINV initContext := by
  constructor
  · intro p hp; cases hp
  · exact List.nodup_nil

theorem regINV_step {bn : Str} (lines : List Str) {ctx : ExportContext}
    (hb : endsDashDigits bn = false) (h : RegINV ctx) :
    RegINV (getClassForStyle bn lines ctx).2 := by
  obtain ⟨h1, h2⟩ := h
  cases hm : alistGet ctx.styleMap (joinNl lines) with
  | some c => rw [getClassForStyle_hit hm]; exact ⟨h1, h2⟩
  | none =>
    rw [getClassForStyle_miss hm]
    dsimp only
    have hset : alistSet ctx.styleMap (joinNl lines) (mkName bn (cnt ctx bn + 1)) =
        ctx.styleMap ++ [(joinNl lines, mkName bn (cnt ctx bn + 1))] :=
      alistSet_append _ (alistGet_none_forall hm)
    constructor
    · intro p hp
      dsimp only at hp
      rw [hset, List.mem_append] at hp
      rcases hp with hp | hp
      · obtain ⟨b, k, hgb, hk1, hk2, hmk⟩ := h1 p hp
        refine ⟨b, k, hgb, hk1, ?_, hmk⟩
        simp only [cnt] at hk2 ⊢
        by_cases hbb : b = bn
        · subst hbb
          rw [alistGet_set_self, Option.getD_some]
          omega
        · rw [alistGet_set_ne _ _ hbb]
          exact hk2
      · rw [List.mem_singleton] at hp
        subst hp
        refine ⟨bn, cnt ctx bn + 1, hb, by omega, ?_, rfl⟩
        simp only [cnt]
        rw [alistGet_set_self, Option.getD_some]
    · dsimp only
      rw [hset, List.map_append]
      simp only [List.map_cons, List.map_nil]
      rw [List.nodup_append]
      refine ⟨h2, List.nodup_singleton _, ?_⟩
      intro a ha hmem
      rw [List.mem_singleton] at hmem
      subst hmem
      obtain ⟨p, hp, hpe⟩ := List.mem_map.mp ha
      obtain ⟨b, k, hgb, hk1, hk2, hmk⟩ := h1 p hp
      rw [hmk] at hpe
      obtain ⟨hbe, hke⟩ := mkName_inj hgb hb hk1 (by omega) hpe
      subst hbe
      omega

theorem regINV_run : ∀ (rs : List Req) (ctx : ExportContext),
    (∀ r ∈ rs, endsDashDigits r.1 = false) → RegINV ctx →
    RegINV (runReqs rs ctx).2 := by
  intro rs
  induction rs with
  | nil => intro ctx _ h; exact h
  | cons r rs ih =>
    intro ctx hr h
    rw [runReqs_cons]
    exact ih _ (fun q hq => hr q (List.mem_cons_of_mem r hq))
      (regINV_step r.2 (hr r (List.mem_cons_self r rs)) h)

theorem alistGet_eq_none_iff {β : Type} : ∀ (m : List (Str × β)) (k : Str),
    alistGet m k = none ↔ k ∉ m.map Prod.fst := by
  intro m
  induction m with
  | nil => intro k; simp [alistGet]
  | cons q t ih =>
    intro k
    rw [alistGet, List.map_cons, List.mem_cons]
    by_cases hq : q.1 = k
    · rw [if_pos hq]
      constructor
      · intro h; cases h
      · intro h
        exact absurd (Or.inl hq.symm) h
    · rw [if_neg hq, ih k]
      constructor
      · intro h hc
        rcases hc with hc | hc
        · exact hq hc.symm
        · exact h hc
      · intro h hc
        exact h (Or.inr hc)

theorem ctxOfPairs_styleMap_keys (ps : List (Str × Str)) :
    (ctxOfPairs ps).styleMap.map Prod.fst = ps.map Prod.snd := by
  simp [ctxOfPairs, List.map_map]

theorem ctxOfPairs_counts_keys (ps : List (Str × Str)) :
    (ctxOfPairs ps).nameCounts.map Prod.fst = ps.map Prod.fst := by
  simp [ctxOfPairs, List.map_map]

theorem runReqs_sim : ∀ (reqs : List Req) (seen : List (Str × Str)),
    pairCond (seen ++ reqs.map keyPair) →
    (seen.map Prod.snd).Nodup →
    (runReqs reqs (ctxOfPairs seen)).2 = ctxOfPairs (seen ++ simPairs reqs seen) := by
  intro reqs
  induction reqs with
  | nil => intro seen _ _; simp [runReqs, simPairs]
  | cons r rs ih =>
    intro seen hcond hnd
    rw [List.map_cons] at hcond
    rw [runReqs_cons]
    dsimp only
    by_cases hmem : joinNl r.2 ∈ seen.map Prod.snd
    · obtain ⟨c, hc⟩ : ∃ c, alistGet (ctxOfPairs seen).styleMap (joinNl r.2) = some c := by
        cases hopt : alistGet (ctxOfPairs seen).styleMap (joinNl r.2) with
        | none =>
          rw [alistGet_eq_none_iff, ctxOfPairs_styleMap_keys] at hopt
          exact absurd hmem hopt
        | some c => exact ⟨c, rfl⟩
      rw [getClassForStyle_hit hc]
      dsimp only
      have hsim : simPairs (r :: rs) seen = simPairs rs seen := by
        rw [simPairs, if_pos hmem]
      rw [hsim]
      have hcond' : pairCond (seen ++ rs.map keyPair) := by
        intro p hp q hq
        have emb : ∀ x : Str × Str, x ∈ seen ++ rs.map keyPair →
            x ∈ seen ++ keyPair r :: rs.map keyPair := by
          intro x hx
          rcases List.mem_append.mp hx with h1 | h1
          · exact List.mem_append_left _ h1
          · exact List.mem_append_right _ (List.mem_cons_of_mem _ h1)
        exact hcond p (emb p hp) q (emb q hq)
      exact ih seen hcond' hnd
    · have hget : alistGet (ctxOfPairs seen).styleMap (joinNl r.2) = none := by
        rw [alistGet_eq_none_iff, ctxOfPairs_styleMap_keys]
        exact hmem
      rw [getClassForStyle_miss hget]
      dsimp only
      have hbase : r.1 ∉ (ctxOfPairs seen).nameCounts.map Prod.fst := by
        rw [ctxOfPairs_counts_keys]
        intro hb
        obtain ⟨p, hp, hpe⟩ := List.mem_map.mp hb
        have hiff : p.2 = joinNl r.2 := (hcond p (List.mem_append_left _ hp) (keyPair r)
          (List.mem_append_right _ (List.mem_cons_self _ _))).mp hpe
        exact hmem (hiff ▸ List.mem_map_of_mem Prod.snd hp)
      have hcnt : cnt (ctxOfPairs seen) r.1 = 0 := by
        simp only [cnt]
        rw [(alistGet_eq_none_iff _ _).mpr hbase]
        rfl
      rw [hcnt]
      simp only [Nat.zero_add]
      have hmk : mkName r.1 1 = r.1 := rfl
      rw [hmk]
      have hset1 : alistSet (ctxOfPairs seen).nameCounts r.1 1 =
          (ctxOfPairs seen).nameCounts ++ [(r.1, 1)] :=
        alistSet_append _ (alistGet_none_forall ((alistGet_eq_none_iff _ _).mpr hbase))
      have hset2 : alistSet (ctxOfPairs seen).styleMap (joinNl r.2) r.1 =
          (ctxOfPairs seen).styleMap ++ [(joinNl r.2, r.1)] :=
        alistSet_append _ (alistGet_none_forall hget)
      rw [hset1, hset2]
      have hsim : simPairs (r :: rs) seen =
          keyPair r :: simPairs rs (seen ++ [keyPair r]) := by
        rw [simPairs, if_neg hmem]
      have hrhs : seen ++ keyPair r :: simPairs rs (seen ++ [keyPair r]) =
          (seen ++ [keyPair r]) ++ simPairs rs (seen ++ [keyPair r]) := by
        rw [List.append_assoc, List.singleton_append]
      rw [hsim, hrhs]
      have hnd' : ((seen ++ [keyPair r]).map Prod.snd).Nodup := by
        rw [List.map_append, List.nodup_append]
        refine ⟨hnd, List.nodup_singleton _, ?_⟩
        intro a ha hb
        rw [List.map_cons, List.map_nil, List.mem_singleton] at hb
        subst hb
        exact hmem ha
      have hcond' : pairCond ((seen ++ [keyPair r]) ++ rs.map keyPair) := by
        rw [List.append_assoc, List.singleton_append]
        exact hcond
      rw [← ih (seen ++ [keyPair r]) hcond' hnd']
      apply congrArg (fun c => (runReqs rs c).2)
      simp [ctxOfPairs, keyPair, mkSimEntry, List.map_append]

theorem simPairs_mem : ∀ (reqs : List Req) (seen : List (Str × Str)),
    pairCond (seen ++ reqs.map keyPair) →
    ∀ q : Str × Str,
      (q ∈ simPairs reqs seen ↔ (q ∈ reqs.map keyPair ∧ q.2 ∉ seen.map Prod.snd)) := by
  intro reqs
  induction reqs with
  | nil => intro seen _ q; simp [simPairs]
  | cons r rs ih =>
    intro seen hcond q
    rw [List.map_cons] at hcond
    rw [simPairs]
    by_cases hmem : joinNl r.2 ∈ seen.map Prod.snd
    · rw [if_pos hmem]
      have hcond' : pairCond (seen ++ rs.map keyPair) := by
        intro p hp q' hq'
        have emb : ∀ x : Str × Str, x ∈ seen ++ rs.map keyPair →
            x ∈ seen ++ keyPair r :: rs.map keyPair := by
          intro x hx
          rcases List.mem_append.mp hx with h1 | h1
          · exact List.mem_append_left _ h1
          · exact List.mem_append_right _ (List.mem_cons_of_mem _ h1)
        exact hcond p (emb p hp) q' (emb q' hq')
      rw [ih seen hcond' q, List.map_cons]
      constructor
      · rintro ⟨hq1, hq2⟩
        exact ⟨List.mem_cons_of_mem _ hq1, hq2⟩
      · rintro ⟨hq1, hq2⟩
        rcases List.mem_cons.mp hq1 with rfl | hq1
        · exact absurd hmem hq2
        · exact ⟨hq1, hq2⟩
    · rw [if_neg hmem]
      have hcond' : pairCond ((seen ++ [keyPair r]) ++ rs.map keyPair) := by
        rw [List.append_assoc, List.singleton_append]
        exact hcond
      rw [List.map_cons]
      constructor
      · intro hq
        rcases List.mem_cons.mp hq with rfl | hq
        · exact ⟨List.mem_cons_self _ _, hmem⟩
        · obtain ⟨hq1, hq2⟩ := (ih (seen ++ [keyPair r]) hcond' q).mp hq
          refine ⟨List.mem_cons_of_mem _ hq1, fun hins => ?_⟩
          exact hq2 (by rw [List.map_append]; exact List.mem_append_left _ hins)
      · rintro ⟨hq1, hq2⟩
        by_cases hqr : q = keyPair r
        · subst hqr
          exact List.mem_cons_self _ _
        · rcases List.mem_cons.mp hq1 with rfl | hq1
          · exact absurd rfl hqr
          · refine List.mem_cons_of_mem _
              ((ih (seen ++ [keyPair r]) hcond' q).mpr ⟨hq1, ?_⟩)
            rw [List.map_append]
            intro hins
            rcases List.mem_append.mp hins with h1 | h1
            · exact hq2 h1
            · rw [List.map_cons, List.map_nil, List.mem_singleton] at h1
              have hq2' := (hcond q (List.mem_append_right _ (List.mem_cons_of_mem _ hq1))
                (keyPair r) (List.mem_append_right _ (List.mem_cons_self _ _))).mpr h1
              exact hqr (Prod.ext hq2' h1)

theorem simPairs_sigs : ∀ (reqs : List Req) (seen : List (Str × Str)),
    ((simPairs reqs seen).map Prod.snd).Nodup ∧
    ∀ s ∈ (simPairs reqs seen).map Prod.snd, s ∉ seen.map Prod.snd := by
  intro reqs
  induction reqs with
  | nil => intro seen; exact ⟨by simp [simPairs], by simp [simPairs]⟩
  | cons r rs ih =>
    intro seen
    rw [simPairs]
    by_cases hmem : joinNl r.2 ∈ seen.map Prod.snd
    · rw [if_pos hmem]; exact ih seen
    · rw [if_neg hmem]
      obtain ⟨ih1, ih2⟩ := ih (seen ++ [keyPair r])
      constructor
      · rw [List.map_cons, List.nodup_cons]
        refine ⟨fun hin => ?_, ih1⟩
        have hnotin := ih2 _ hin
        exact hnotin (by
          rw [List.map_append]
          exact List.mem_append_right _ (by simp [keyPair]))
      · intro s hs
        rw [List.map_cons, List.mem_cons] at hs
        rcases hs with rfl | hs
        · exact hmem
        · intro hcontra
          exact ih2 s hs (by rw [List.map_append]; exact List.mem_append_left _ hcontra)

theorem strLtB_irrefl : ∀ s : Str, strLtB s s = false := by
  intro s
  induction s with
  | nil => rfl
  | cons a t ih => rw [strLtB, if_neg (lt_irrefl a), if_neg (lt_irrefl a)]; exact ih

theorem strLtB_asymm : ∀ (s t : Str), strLtB s t = true → strLtB t s = false := by
  intro s
  induction s with
  | nil =>
    intro t h
    cases t with
    | nil => simp [strLtB] at h
    | cons b bs => rfl
  | cons a as ih =>
    intro t h
    cases t with
    | nil => simp [strLtB] at h
    | cons b bs =>
      rw [strLtB] at h ⊢
      by_cases hab : a < b
      · rw [if_neg (asymm hab), if_pos hab]
      · rw [if_neg hab] at h
        by_cases hba : b < a
        · rw [if_pos hba] at h; cases h
        · rw [if_neg hba] at h
          rw [if_neg hba, if_neg hab]
          exact ih bs h

theorem strLtB_conn : ∀ (s t : Str), strLtB s t = false → strLtB t s = false → s = t := by
  intro s
  induction s with
  | nil =>
    intro t h1 _
    cases t with
    | nil => rfl
    | cons b bs => simp [strLtB] at h1
  | cons a as ih =>
    intro t h1 h2
    cases t with
    | nil => simp [strLtB] at h2
    | cons b bs =>
      rw [strLtB] at h1 h2
      by_cases hab : a < b
      · rw [if_pos hab] at h1; cases h1
      · by_cases hba : b < a
        · rw [if_pos hba] at h2; cases h2
        · rw [if_neg hab, if_neg hba] at h1
          rw [if_neg hba, if_neg hab] at h2
          have hEq : a = b := le_antisymm (le_of_not_lt hba) (le_of_not_lt hab)
          rw [hEq, ih bs h1 h2]

theorem strLtB_trans : ∀ (s t u : Str), strLtB s t = true → strLtB t u = true →
    strLtB s u = true := by
  intro s
  induction s with
  | nil =>
    intro t u h1 h2
    cases t with
    | nil => simp [strLtB] at h1
    | cons b bs =>
      cases u with
      | nil => simp [strLtB] at h2
      | cons c cs => rfl
  | cons a as ih =>
    intro t u h1 h2
    cases t with
    | nil => simp [strLtB] at h1
    | cons b bs =>
      cases u with
      | nil => simp [strLtB] at h2
      | cons c cs =>
        rw [strLtB] at h1 h2 ⊢
        by_cases hab : a < b
        · by_cases hbc : b < c
          · rw [if_pos (lt_trans hab hbc)]
          · rw [if_neg hbc] at h2
            by_cases hcb : c < b
            · rw [if_pos hcb] at h2; cases h2
            · rw [if_neg hcb] at h2
              have hbceq : b = c := le_antisymm (le_of_not_lt hcb) (le_of_not_lt hbc)
              rw [if_pos (hbceq ▸ hab)]
        · rw [if_neg hab] at h1
          by_cases hba : b < a
          · rw [if_pos hba] at h1; cases h1
          · rw [if_neg hba] at h1
            have hEq : a = b := le_antisymm (le_of_not_lt hba) (le_of_not_lt hab)
            subst hEq
            by_cases hac : a < c
            · rw [if_pos hac]
            · rw [if_neg hac] at h2 ⊢
              by_cases hca : c < a
              · rw [if_pos hca] at h2; cases h2
              · rw [if_neg hca] at h2 ⊢
                exact ih bs cs h1 h2

instance : IsTotal StyleEntry entryLE := by
  constructor
  intro a b
  by_cases h1 : strLtB a.baseName b.baseName = true
  · exact Or.inl (Or.inl h1)
  · by_cases h2 : strLtB b.baseName a.baseName = true
    · exact Or.inr (Or.inl h2)
    · have hEq : a.baseName = b.baseName :=
        strLtB_conn _ _ (Bool.eq_false_iff.mpr h1) (Bool.eq_false_iff.mpr h2)
      rcases Nat.le_total a.suffix b.suffix with hs | hs
      · exact Or.inl (Or.inr ⟨hEq, hs⟩)
      · exact Or.inr (Or.inr ⟨hEq.symm, hs⟩)

instance : IsTrans StyleEntry entryLE := by
  constructor
  intro a b c hab hbc
  rcases hab with h1 | ⟨e1, s1⟩
  · rcases hbc with h2 | ⟨e2, _⟩
    · exact Or.inl (strLtB_trans _ _ _ h1 h2)
    · exact Or.inl (by rw [← e2]; exact h1)
  · rcases hbc with h2 | ⟨e2, s2⟩
    · exact Or.inl (by rw [e1]; exact h2)
    · exact Or.inr ⟨e1.trans e2, le_trans s1 s2⟩

theorem sorted_nodupKeys_unique : ∀ (l₁ l₂ : List StyleEntry), l₁.Perm l₂ →
    l₁.Sorted entryLE → l₂.Sorted entryLE →
    (l₁.map StyleEntry.baseName).Nodup → l₁ = l₂ := by
  intro l₁
  induction l₁ with
  | nil =>
    intro l₂ hp _ _ _
    exact hp.nil_eq
  | cons a t ih =>
    intro l₂ hp hs1 hs2 hnd
    cases l₂ with
    | nil => exact absurd hp.symm.nil_eq (by simp)
    | cons b u =>
      have hab : a = b := by
        have hamem : a ∈ b :: u := hp.subset (List.mem_cons_self a t)
        rcases List.mem_cons.mp hamem with h | h
        · exact h
        · have hbmem : b ∈ a :: t := hp.symm.subset (List.mem_cons_self b u)
          rcases List.mem_cons.mp hbmem with h' | h'
          · exact h'.symm
          · have h1 : entryLE a b := (List.sorted_cons.mp hs1).1 b h'
            have h2 : entryLE b a := (List.sorted_cons.mp hs2).1 a h
            have hbn : a.baseName = b.baseName := by
              rcases h1 with hlt | ⟨he, _⟩
              · rcases h2 with hlt2 | ⟨he2, _⟩
                · have hf := strLtB_asymm _ _ hlt
                  rw [hlt2] at hf
                  cases hf
                · exact he2.symm
              · exact he
            exfalso
            have hb1 : b.baseName ∈ t.map StyleEntry.baseName := List.mem_map_of_mem _ h'
            rw [← hbn] at hb1
            rw [List.map_cons, List.nodup_cons] at hnd
            exact hnd.1 hb1
      subst hab
      have htail : t = u := by
        apply ih u hp.cons_inv (List.sorted_cons.mp hs1).2 (List.sorted_cons.mp hs2).2
        rw [List.map_cons, List.nodup_cons] at hnd
        exact hnd.2
      rw [htail]

theorem absPos_eq (node : AbsChild) (pf : ParentFrameGeom)
    (hpos : node.layoutPositioning = .absolutePos) :
    getAbsolutePositionStyles node (some pf) =
      "position: absolute".data :: zPartE node pf ++ (hPartE node pf).1 ++
        (vPartE node pf).1 ++ rotStyleE node ++
        (if (hPartE node pf).2 ++ (vPartE node pf).2 ++ rotTransE node ≠ [] then
          ["transform: ".data ++
            joinSp ((hPartE node pf).2 ++ (vPartE node pf).2 ++ rotTransE node)]
         else []) := by
  unfold getAbsolutePositionStyles zPartE hPartE vPartE rotStyleE rotTransE
  rw [hpos]
  simp only [ne_eq]
  rw [if_neg (fun h => h trivial)]

/-! ## Claim theorems -/

/-- C9: name sanitization is idempotent: `sanitizeName (sanitizeName x)`
equals `sanitizeName x` for every input string, where `sanitizeName`
lowercases, strips characters outside `[a-z0-9-_ ]`, collapses whitespace
runs to single hyphens and trims leading/trailing hyphens. -/
theorem sanitizeName_idempotent (x : Str) :
    sanitizeName (sanitizeName x) = sanitizeName x := by
  apply sanitizeName_fixed_of_clean sanitized_chars
  show trimHyphens (sanitizeName x) = sanitizeName x
  unfold sanitizeName
  exact trimHyphens_idem _

/-- C8 counterexample: the component-templating (React) escaper does not
reserve the quote characters: `escapeJsxText` leaves both `"` and `'`
unchanged, while `escapeHtml` replaces them. -/
theorem escapeJsxText_keeps_quotes :
    escapeJsxText [quoteCh] = [quoteCh] ∧ escapeJsxText [aposCh] = [aposCh] ∧
      escapeHtml [quoteCh] = "&quot;".data ∧ escapeHtml [aposCh] = "&#39;".data := by
  decide

/-- C8 (amended): the HTML escaper replaces every occurrence of
`&`, `<`, `>`, `"`, `'` with its entity, so its output contains none of
`<`, `>`, `"`, `'`; the React escaper reserves `&`, `<`, `>`, `{`, `}`
(its output contains none of `<`, `>`, `{`, `}`) but leaves the two quote
characters unchanged. -/
theorem escape_characters :
    (∀ s : Str, '<' ∉ escapeHtml s ∧ '>' ∉ escapeHtml s ∧
      quoteCh ∉ escapeHtml s ∧ aposCh ∉ escapeHtml s) ∧
    (escMapHtml '&' = "&amp;".data ∧ escMapHtml '<' = "&lt;".data ∧
      escMapHtml '>' = "&gt;".data ∧ escMapHtml quoteCh = "&quot;".data ∧
      escMapHtml aposCh = "&#39;".data) ∧
    (∀ s : Str, '<' ∉ escapeJsxText s ∧ '>' ∉ escapeJsxText s ∧
      lbraceCh ∉ escapeJsxText s ∧ rbraceCh ∉ escapeJsxText s) ∧
    (escMapJsx '&' = "&amp;".data ∧ escMapJsx '<' = "&lt;".data ∧
      escMapJsx '>' = "&gt;".data ∧ escMapJsx lbraceCh = "&#123;".data ∧
      escMapJsx rbraceCh = "&#125;".data) ∧
    (∀ s : Str, (escapeJsxText s).count quoteCh = s.count quoteCh ∧
      (escapeJsxText s).count aposCh = s.count aposCh) :=
  ⟨escapeHtml_not_banned, by decide, escapeJsxText_not_banned, by decide,
   fun s => ⟨escapeJsxText_count_quote s, escapeJsxText_count_apos s⟩⟩

/-- C10: for every node whose visible flag is false, the tree walker
returns empty markup and leaves the export context completely unchanged
(no class names, style entries, utility classes, font families or svg ids),
whatever the per-variant branches do. -/
theorem invisible_node_no_effect
    (fB gB tB rB eB vB : SkelNode → ExportContext → Str × ExportContext)
    (node : SkelNode) (ctx : ExportContext) (h : node.visible = false) :
    nodeToHtmlCssSkel fB gB tB rB eB vB node ctx = ([], ctx) := by
  unfold nodeToHtmlCssSkel
  rw [if_pos h]

/-- C6 counterexample: an exception in the per-text
`getStyledTextSegments` call is recovered locally — the plain escaped
characters are kept and the walker still succeeds — so that exception
never reaches the top-level handler, contrary to the claim that every
exception other than a per-vector export failure propagates to the single
top-level entry point. -/
theorem text_segments_error_recovered :
    walkE (.textNode "hi".data (some (.error "segments failed".data))) =
      .ok (textHtml "hi".data) ∧
    onMessageExport
        (some (.textNode "hi".data (some (.error "segments failed".data)))) =
      .exportResultMsg (textHtml "hi".data) ∧
    ¬onMessageExport
        (some (.textNode "hi".data (some (.error "segments failed".data)))) =
      .errorMsg "segments failed".data :=
  ⟨rfl, rfl, fun h => UiMsg.noConfusion h⟩

/-- C6 (amended): a failed per-vector export is recovered locally as a
placeholder box, and a failed per-text `getStyledTextSegments` call is
recovered locally by keeping the plain escaped characters — neither
propagates (a raise-free tree always converts to a result); any exception
raised outside these two local recovery sites reaches the single
top-level entry point, which reports it as an error message instead of
leaving it unhandled, and an ineligible selection is reported the same
way. -/
theorem export_error_containment :
    (∀ (e : Str) (w h : ℚ), walkE (.vec (.error e) w h) = .ok (placeholderHtml w h)) ∧
    (∀ (s e : Str), walkE (.textNode s (some (.error e))) = .ok (textHtml s)) ∧
    (∀ t : ENode, noRaise t = true → ∃ html, walkE t = .ok html) ∧
    (∀ (t : ENode) (e : Str), walkE t = .error e →
      onMessageExport (some t) = .errorMsg e) ∧
    onMessageExport none = .errorMsg selectionErrorMsg :=
  ⟨fun _ _ _ => rfl,
   fun _ _ => rfl,
   walkE_total,
   fun t e h => by rw [onMessageExport, exportSelectionE, h],
   rfl⟩

/-- Witness for C6: a frame whose vector child fails to export and whose
text child fails to segment still converts, and a raising node's message
reaches the UI error channel. -/
theorem export_error_containment_witness :
    walkE (.vec (.error "boom".data) 3 4) = .ok (placeholderHtml 3 4) ∧
    walkE (.textNode "hi".data (some (.error "segfail".data))) =
      .ok (textHtml "hi".data) ∧
    (∃ html, walkE (.frameNode [.vec (.error "boom".data) 3 4,
      .textNode "hi".data (some (.error "segfail".data))]) = .ok html) ∧
    onMessageExport (some (.raiseNode "oops".data)) = .errorMsg "oops".data :=
  ⟨export_error_containment.1 "boom".data 3 4,
   export_error_containment.2.1 "hi".data "segfail".data,
   export_error_containment.2.2.1 _ (by decide),
   export_error_containment.2.2.2.1 _ "oops".data rfl⟩

/-- C7: for every auto-layout (HORIZONTAL/VERTICAL) frame, the emitted
flex utility classes contain exactly one `gap-`-prefixed class, namely
`gap-<rounded item spacing>`, except that it is omitted entirely when the
primary-axis alignment is SPACE_BETWEEN; when emitted, the gap utility is
registered in the run's utility-class set. -/
theorem flex_gap_emission (frame : FlexFrame) (ctx : ExportContext)
    (hmode : frame.layoutMode = .horizontal ∨ frame.layoutMode = .vertical) :
    ((registerFlexUtilities frame ctx).1.filter (fun c => "gap-".data.isPrefixOf c)) =
      (if frame.primaryAxisAlignItems = .spaceBetween then []
       else ["gap-".data ++ formatNegativeClassValue frame.itemSpacing]) ∧
    (¬frame.primaryAxisAlignItems = .spaceBetween →
      ("gap-".data ++ formatNegativeClassValue frame.itemSpacing) ∈
        (registerFlexUtilities frame ctx).2.utilityClasses) := by
  constructor
  · unfold registerFlexUtilities
    dsimp only
    rw [List.filter_cons_of_neg (by decide)]
    have hdir : ("gap-".data.isPrefixOf
        (if frame.layoutMode = .horizontal then "flex-row".data else "flex-col".data)) =
          false := by
      split_ifs <;> decide
    rw [List.filter_cons_of_neg (by simp [hdir])]
    rw [List.filter_append, List.filter_append, List.filter_append]
    have hwrap : ∀ ctxw, List.filter (fun c => "gap-".data.isPrefixOf c)
        (flexWrapBlock frame ctxw).1 = [] := fun ctxw =>
      List.filter_eq_nil_iff.mpr (fun a ha => by
        simp [flexWrapBlock_no_gap frame ctxw a ha])
    have hpad : ∀ ctxp, List.filter (fun c => "gap-".data.isPrefixOf c)
        (flexPadBlock frame ctxp).1 = [] := fun ctxp =>
      List.filter_eq_nil_iff.mpr (fun a ha => by
        simp [flexPadBlock_no_gap frame ctxp a ha])
    have hji : List.filter (fun c => "gap-".data.isPrefixOf c)
        [justifyClassOf frame.primaryAxisAlignItems,
         itemsClassOf frame.counterAxisAlignItems] = [] := by
      rw [List.filter_cons_of_neg (by cases frame.primaryAxisAlignItems <;> decide),
        List.filter_cons_of_neg (by cases frame.counterAxisAlignItems <;> decide),
        List.filter_nil]
    rw [hwrap, hpad, hji, flexGapBlock_classes]
    split_ifs with hsb
    · rfl
    · rw [List.filter_cons_of_pos (by simp [gapPref_self]), List.filter_nil]
      simp
  · intro hsb
    unfold registerFlexUtilities
    dsimp only
    apply registerUtilityClass_mem_preserved
    apply registerUtilityClass_mem_preserved
    apply flexPadBlock_mem_preserved
    unfold flexGapBlock
    rw [if_neg hsb]
    dsimp only
    exact registerUtilityClass_mem_self _ _ _

/-- Witness for C7 at the spec's end-to-end example frame (HORIZONTAL,
itemSpacing 8, uniform padding 16). -/
theorem flex_gap_emission_witness :
    ((registerFlexUtilities
        ⟨.horizontal, .noWrap, false, none, 8, 16, 16, 16, 16, .amin, .autoAlign⟩
        initContext).1.filter (fun c => "gap-".data.isPrefixOf c)) =
      [ "gap-".data ++ formatNegativeClassValue 8 ] := by
  rw [(flex_gap_emission
    ⟨.horizontal, .noWrap, false, none, 8, 16, 16, 16, 16, .amin, .autoAlign⟩
    initContext (Or.inl rfl)).1]
  decide

/-- C4 counterexample: when the mask node's shape yields no clip path
(here a vector mask), the mask node itself is emitted but its non-empty
run of masked siblings is dropped from the output entirely, instead of
being emitted inside a wrapper. -/
theorem mask_run_unsupported_shape_drops_siblings :
    maskRunLoop (fun _ _ => []) [vectorMask 1, plainRect 2] 0 =
      [MaskEmit.maskItself (vectorMask 1)] ∧
    plainRect 2 ∉ emitNodes (maskRunLoop (fun _ _ => []) [vectorMask 1, plainRect 2] 0) := by
  decide

/-- C4 (amended): in an ordered sibling list, a mask node applies to
exactly the contiguous run of siblings up to the next mask node or the
end; the mask node itself is always emitted; when every mask in the list
has a clip-path-producing shape every sibling is emitted exactly once;
every emitted wrapper belongs to a mask node with a clip path, holds a
non-empty run of non-mask siblings delimited by the next mask node, and
carries width/height from the mask's box, absolute positioning,
overflow hidden and the derived clip path; masked siblings under a mask
of unsupported shape are omitted.  The spec's [A(mask), B, C, D(mask), E]
example groups {B, C} under A and {E} under D. -/
theorem mask_run_grouping :
    (∀ (extra : MNode → Nat → List Str) (ns : List MNode) (i : Nat),
      (∀ n ∈ ns, n.isMask = true → (getClipPathFromMaskNode n).isSome = true) →
      emitNodes (maskRunLoop extra ns i) = ns) ∧
    (∀ (extra : MNode → Nat → List Str) (ns : List MNode) (i : Nat) (n : MNode),
      n ∈ ns → n.isMask = true → MaskEmit.maskItself n ∈ maskRunLoop extra ns i) ∧
    (∀ (extra : MNode → Nat → List Str) (ns : List MNode) (i : Nat) (m : MNode)
      (st : List Str) (ms : List MNode),
      MaskEmit.wrapper m st ms ∈ maskRunLoop extra ns i →
      m.isMask = true ∧ ms ≠ [] ∧ (∀ n ∈ ms, n.isMask = false) ∧
        (∃ cp, getClipPathFromMaskNode m = some cp ∧
          ∃ j, st = wrapperBaseStyles m cp ++ extra m j) ∧
        ∃ pre post, ns = pre ++ m :: (ms ++ post) ∧
          (post = [] ∨ ∃ p ps, post = p :: ps ∧ p.isMask = true)) ∧
    maskRunLoop (fun _ _ => [])
        [rectMask 1, plainRect 2, plainRect 3, rectMask 4, plainRect 5] 0 =
      [MaskEmit.maskItself (rectMask 1),
       MaskEmit.wrapper (rectMask 1)
         (wrapperBaseStyles (rectMask 1) "inset(0)".data ++ [])
         [plainRect 2, plainRect 3],
       MaskEmit.maskItself (rectMask 4),
       MaskEmit.wrapper (rectMask 4)
         (wrapperBaseStyles (rectMask 4) "inset(0)".data ++ [])
         [plainRect 5]] :=
  ⟨fun extra ns i h => emitNodes_maskRunGo extra ns.length ns i le_rfl h,
   fun extra ns i n hn hm => maskItself_mem_maskRunGo extra ns.length ns i n le_rfl hn hm,
   fun extra ns i m st ms hmem => wrapper_mem_maskRunGo extra ns.length ns i m st ms le_rfl hmem,
   by decide⟩

/-- Witness for C4: a rectangle mask followed by one sibling emits the
mask and a wrapper, and the flattened emission preserves the sibling list. -/
theorem mask_run_grouping_witness :
    emitNodes (maskRunLoop (fun _ _ => []) [rectMask 1, plainRect 2] 0) =
      [rectMask 1, plainRect 2] :=
  mask_run_grouping.1 (fun _ _ => []) [rectMask 1, plainRect 2] 0 (by decide)

/-- C5 counterexample: for a 200×100 container and a 50×20 child at local
(0,0) with CENTER/CENTER constraints, the output pins both axes to 50%
but the transform carries the residual pixel translates (the child's
center (25,10) does not coincide with the container's center (100,50)),
so the claimed residual-free transform is absent. -/
theorem center_constraint_example_has_residual :
    ("left: 50%".data ∈ getAbsolutePositionStyles
        ⟨0, 0, 0, 50, 20, 0, .absolutePos, .cCenter, .cCenter⟩ (some ⟨200, 100, [0]⟩) ∧
      "top: 50%".data ∈ getAbsolutePositionStyles
        ⟨0, 0, 0, 50, 20, 0, .absolutePos, .cCenter, .cCenter⟩ (some ⟨200, 100, [0]⟩)) ∧
    "transform: translateX(-50%) translateY(-50%)".data ∉ getAbsolutePositionStyles
      ⟨0, 0, 0, 50, 20, 0, .absolutePos, .cCenter, .cCenter⟩ (some ⟨200, 100, [0]⟩) ∧
    "transform: translateX(-50%) translateX(-75px) translateY(-50%) translateY(-40px)".data
      ∈ getAbsolutePositionStyles
        ⟨0, 0, 0, 50, 20, 0, .absolutePos, .cCenter, .cCenter⟩ (some ⟨200, 100, [0]⟩) := by
  decide

/-- C5 (amended): for every absolutely positioned child whose constraint
on an axis is CENTER — whatever the other axis's constraint and whatever
the rotation — that axis's position declaration is exactly the edge
pinned to 50%, its transform contribution is exactly a `translate(-50%)`
followed by a residual pixel translate precisely when the rounded value
of (child center − container center) is non-zero, and both the 50%
declaration and the transform declaration carrying those parts appear in
the emitted styles. -/
theorem center_constraint_styles (node : AbsChild) (pf : ParentFrameGeom)
    (hpos : node.layoutPositioning = .absolutePos) :
    (node.constraintH = .cCenter →
      (hPartE node pf).1 = ["left: 50%".data] ∧
      (hPartE node pf).2 = "translateX(-50%)".data ::
        (if jsRound (roundPx (node.x + node.width / 2 - pf.width / 2)) ≠ 0 then
          ["translateX(".data ++
            qToStr (roundPx (node.x + node.width / 2 - pf.width / 2)) ++ "px)".data]
         else []) ∧
      "left: 50%".data ∈ getAbsolutePositionStyles node (some pf) ∧
      "transform: ".data ++
          joinSp ((hPartE node pf).2 ++ (vPartE node pf).2 ++ rotTransE node) ∈
        getAbsolutePositionStyles node (some pf)) ∧
    (node.constraintV = .cCenter →
      (vPartE node pf).1 = ["top: 50%".data] ∧
      (vPartE node pf).2 = "translateY(-50%)".data ::
        (if jsRound (roundPx (node.y + node.height / 2 - pf.height / 2)) ≠ 0 then
          ["translateY(".data ++
            qToStr (roundPx (node.y + node.height / 2 - pf.height / 2)) ++ "px)".data]
         else []) ∧
      "top: 50%".data ∈ getAbsolutePositionStyles node (some pf) ∧
      "transform: ".data ++
          joinSp ((hPartE node pf).2 ++ (vPartE node pf).2 ++ rotTransE node) ∈
        getAbsolutePositionStyles node (some pf)) := by
  constructor
  · intro hH
    have h1 : (hPartE node pf).1 = ["left: 50%".data] := by
      unfold hPartE
      rw [hH]
    have h2 : (hPartE node pf).2 = "translateX(-50%)".data ::
        (if jsRound (roundPx (node.x + node.width / 2 - pf.width / 2)) ≠ 0 then
          ["translateX(".data ++
            qToStr (roundPx (node.x + node.width / 2 - pf.width / 2)) ++ "px)".data]
         else []) := by
      unfold hPartE
      rw [hH]
    refine ⟨h1, h2, ?_, ?_⟩
    · rw [absPos_eq node pf hpos, h1]
      simp
    · have hne : (hPartE node pf).2 ++ (vPartE node pf).2 ++ rotTransE node ≠ [] := by
        rw [h2]
        simp
      rw [absPos_eq node pf hpos, if_pos hne]
      simp
  · intro hV
    have h1 : (vPartE node pf).1 = ["top: 50%".data] := by
      unfold vPartE
      rw [hV]
    have h2 : (vPartE node pf).2 = "translateY(-50%)".data ::
        (if jsRound (roundPx (node.y + node.height / 2 - pf.height / 2)) ≠ 0 then
          ["translateY(".data ++
            qToStr (roundPx (node.y + node.height / 2 - pf.height / 2)) ++ "px)".data]
         else []) := by
      unfold vPartE
      rw [hV]
    refine ⟨h1, h2, ?_, ?_⟩
    · rw [absPos_eq node pf hpos, h1]
      simp
    · have hne : (hPartE node pf).2 ++ (vPartE node pf).2 ++ rotTransE node ≠ [] := by
        rw [h2]
        simp
      rw [absPos_eq node pf hpos, if_pos hne]
      simp

/-- Witness for C5 at a one-axis-CENTER, rotated child: width 50 at x 0 in
a width-200 frame, horizontal CENTER, vertical MIN, rotation 45. -/
theorem center_constraint_styles_witness :
    (⟨7, 0, 0, 50, 20, 45, .absolutePos, .cCenter, .cMin⟩ : AbsChild).layoutPositioning =
      .absolutePos ∧
    (((⟨7, 0, 0, 50, 20, 45, .absolutePos, .cCenter, .cMin⟩ : AbsChild).constraintH =
        .cCenter →
      (hPartE ⟨7, 0, 0, 50, 20, 45, .absolutePos, .cCenter, .cMin⟩ ⟨200, 100, [7]⟩).1 =
        ["left: 50%".data] ∧
      (hPartE ⟨7, 0, 0, 50, 20, 45, .absolutePos, .cCenter, .cMin⟩ ⟨200, 100, [7]⟩).2 =
        "translateX(-50%)".data ::
        (if jsRound (roundPx ((0 : ℚ) + 50 / 2 - 200 / 2)) ≠ 0 then
          ["translateX(".data ++ qToStr (roundPx ((0 : ℚ) + 50 / 2 - 200 / 2)) ++
            "px)".data]
         else []) ∧
      "left: 50%".data ∈ getAbsolutePositionStyles
        ⟨7, 0, 0, 50, 20, 45, .absolutePos, .cCenter, .cMin⟩ (some ⟨200, 100, [7]⟩) ∧
      "transform: ".data ++ joinSp
          ((hPartE ⟨7, 0, 0, 50, 20, 45, .absolutePos, .cCenter, .cMin⟩
              ⟨200, 100, [7]⟩).2 ++
           (vPartE ⟨7, 0, 0, 50, 20, 45, .absolutePos, .cCenter, .cMin⟩
              ⟨200, 100, [7]⟩).2 ++
           rotTransE ⟨7, 0, 0, 50, 20, 45, .absolutePos, .cCenter, .cMin⟩) ∈
        getAbsolutePositionStyles ⟨7, 0, 0, 50, 20, 45, .absolutePos, .cCenter, .cMin⟩
          (some ⟨200, 100, [7]⟩)) ∧
     ((⟨7, 0, 0, 50, 20, 45, .absolutePos, .cCenter, .cMin⟩ : AbsChild).constraintV =
        .cCenter →
      (vPartE ⟨7, 0, 0, 50, 20, 45, .absolutePos, .cCenter, .cMin⟩ ⟨200, 100, [7]⟩).1 =
        ["top: 50%".data] ∧
      (vPartE ⟨7, 0, 0, 50, 20, 45, .absolutePos, .cCenter, .cMin⟩ ⟨200, 100, [7]⟩).2 =
        "translateY(-50%)".data ::
        (if jsRound (roundPx ((0 : ℚ) + 20 / 2 - 100 / 2)) ≠ 0 then
          ["translateY(".data ++ qToStr (roundPx ((0 : ℚ) + 20 / 2 - 100 / 2)) ++
            "px)".data]
         else []) ∧
      "top: 50%".data ∈ getAbsolutePositionStyles
        ⟨7, 0, 0, 50, 20, 45, .absolutePos, .cCenter, .cMin⟩ (some ⟨200, 100, [7]⟩) ∧
      "transform: ".data ++ joinSp
          ((hPartE ⟨7, 0, 0, 50, 20, 45, .absolutePos, .cCenter, .cMin⟩
              ⟨200, 100, [7]⟩).2 ++
           (vPartE ⟨7, 0, 0, 50, 20, 45, .absolutePos, .cCenter, .cMin⟩
              ⟨200, 100, [7]⟩).2 ++
           rotTransE ⟨7, 0, 0, 50, 20, 45, .absolutePos, .cCenter, .cMin⟩) ∈
        getAbsolutePositionStyles ⟨7, 0, 0, 50, 20, 45, .absolutePos, .cCenter, .cMin⟩
          (some ⟨200, 100, [7]⟩))) :=
  ⟨rfl, center_constraint_styles ⟨7, 0, 0, 50, 20, 45, .absolutePos, .cCenter, .cMin⟩
    ⟨200, 100, [7]⟩ rfl⟩

/-- Witness for C10 at a concrete invisible text node. -/
theorem invisible_node_no_effect_witness :
    nodeToHtmlCssSkel (fun _ c => ([], c)) (fun _ c => ([], c)) (fun _ c => ([], c))
      (fun _ c => ([], c)) (fun _ c => ([], c)) (fun _ c => ([], c))
      ⟨false, .textKind⟩ initContext = ([], initContext) :=
  invisible_node_no_effect _ _ _ _ _ _ ⟨false, .textKind⟩ initContext (by decide)

/-- C2: calling `getUniqueClassName` N times with one base on a fresh
context yields exactly `base, base-2, base-3, …, base-N` in that order
(the first result is the bare base, the i-th result for i ≥ 2 is
`base-i`), and no name — hence no number — is ever reused. -/
theorem getUniqueClassName_sequence (b : Str) (N : Nat) (hN : 1 ≤ N) :
    (uniqueNames b N initContext).length = N ∧
    (uniqueNames b N initContext).getD 0 [] = b ∧
    (∀ i, 1 ≤ i → i < N → (uniqueNames b N initContext).getD i [] =
      b ++ '-' :: natToStr (i + 1)) ∧
    (uniqueNames b N initContext).Nodup := by
  have huniq : uniqueNames b N initContext =
      (List.range N).map (fun i => mkName b (i + 1)) := by
    rw [uniqueNames_eq]
    apply List.map_congr_left
    intro i _
    have hc : cnt initContext b = 0 := rfl
    rw [hc]
    exact congrArg (mkName b) (by omega)
  refine ⟨?_, ?_, ?_, ?_⟩
  · rw [huniq]; simp
  · rw [huniq, List.getD_eq_getElem _ _ (by simpa using hN)]
    simp [mkName]
  · intro i h1 h2
    rw [huniq, List.getD_eq_getElem _ _ (by simpa using h2)]
    simp only [List.getElem_map, List.getElem_range]
    rw [mkName, if_neg (by omega)]
  · rw [huniq]
    refine List.Nodup.map_on (fun x _ y _ hxy => ?_) (List.nodup_range N)
    have h3 := mkName_inj_fixed b (Nat.le_add_left 1 x) (Nat.le_add_left 1 y) hxy
    omega

/-- Witness for C2 with base `btn` and N = 3. -/
theorem getUniqueClassName_sequence_witness :
    1 ≤ 3 ∧
    ((uniqueNames "btn".data 3 initContext).length = 3 ∧
     (uniqueNames "btn".data 3 initContext).getD 0 [] = "btn".data ∧
     (∀ i, 1 ≤ i → i < 3 → (uniqueNames "btn".data 3 initContext).getD i [] =
       "btn".data ++ '-' :: natToStr (i + 1)) ∧
     (uniqueNames "btn".data 3 initContext).Nodup) :=
  ⟨by decide, getUniqueClassName_sequence "btn".data 3 (by decide)⟩

/-- C1 counterexample: in the run with requests `("a", ["x"])`,
`("a", ["y"])`, `("a-2", ["z"])`, the second and third requests have
different declaration lists but `getClassForStyle` returns the same class
name `a-2` for both (the suffixed name minted for base `a` collides with
the bare base `a-2`). -/
theorem style_interning_collision :
    (runReqs [("a".data, ["x".data]), ("a".data, ["y".data]),
      ("a-2".data, ["z".data])] initContext).1 =
      ["a".data, "a-2".data, "a-2".data] ∧
    ¬joinNl ["y".data] = joinNl ["z".data] := by decide

/-- C1 (amended): in every run, two interning requests with textually
identical declaration lists receive the same class name and every
signature gains at most one style entry (both unconditionally); two
requests with differing declaration lists receive distinct class names
provided no request's base name itself ends in `-<digits>`. -/
theorem style_interning (reqs : List Req) (i j : Nat)
    (hi : i < reqs.length) (hj : j < reqs.length) :
    (runReqs reqs initContext).1.length = reqs.length ∧
    (joinNl (reqs.getD i ([], [])).2 = joinNl (reqs.getD j ([], [])).2 →
      (runReqs reqs initContext).1.getD i [] = (runReqs reqs initContext).1.getD j []) ∧
    (∀ s : Str, (entriesForSig s (runReqs reqs initContext).2).length ≤ 1) ∧
    ((∀ r ∈ reqs, endsDashDigits r.1 = false) →
      ¬joinNl (reqs.getD i ([], [])).2 = joinNl (reqs.getD j ([], [])).2 →
      ¬(runReqs reqs initContext).1.getD i [] =
        (runReqs reqs initContext).1.getD j []) := by
  have hbi := runReqs_binding reqs initContext i hi
  have hbj := runReqs_binding reqs initContext j hj
  refine ⟨runReqs_length reqs initContext, ?_, ?_, ?_⟩
  · intro hss
    rw [hss] at hbi
    rw [hbi] at hbj
    exact Option.some.inj hbj
  · intro s
    exact (sigINV_run reqs initContext s (sigINV_init s)).2
  · intro hbase hss hnn
    have hreg := regINV_run reqs initContext hbase regINV_init
    have hmi := alistGet_mem hbi
    have hmj := alistGet_mem hbj
    rw [hnn] at hmi
    have hpq := List.inj_on_of_nodup_map hreg.2 hmi hmj rfl
    exact hss (congrArg Prod.fst hpq)

/-- Witness for C1 on a three-request run with clean bases. -/
theorem style_interning_witness :
    0 < ([("a".data, ["x".data]), ("b".data, ["x".data]),
          ("c".data, ["y".data])] : List Req).length ∧
    1 < ([("a".data, ["x".data]), ("b".data, ["x".data]),
          ("c".data, ["y".data])] : List Req).length ∧
    ((runReqs [("a".data, ["x".data]), ("b".data, ["x".data]),
        ("c".data, ["y".data])] initContext).1.length =
      ([("a".data, ["x".data]), ("b".data, ["x".data]),
        ("c".data, ["y".data])] : List Req).length ∧
     (joinNl (([("a".data, ["x".data]), ("b".data, ["x".data]),
          ("c".data, ["y".data])] : List Req).getD 0 ([], [])).2 =
        joinNl (([("a".data, ["x".data]), ("b".data, ["x".data]),
          ("c".data, ["y".data])] : List Req).getD 1 ([], [])).2 →
      (runReqs [("a".data, ["x".data]), ("b".data, ["x".data]),
        ("c".data, ["y".data])] initContext).1.getD 0 [] =
        (runReqs [("a".data, ["x".data]), ("b".data, ["x".data]),
          ("c".data, ["y".data])] initContext).1.getD 1 []) ∧
     (∀ s : Str, (entriesForSig s (runReqs [("a".data, ["x".data]),
        ("b".data, ["x".data]), ("c".data, ["y".data])] initContext).2).length ≤ 1) ∧
     ((∀ r ∈ ([("a".data, ["x".data]), ("b".data, ["x".data]),
          ("c".data, ["y".data])] : List Req), endsDashDigits r.1 = false) →
      ¬joinNl (([("a".data, ["x".data]), ("b".data, ["x".data]),
          ("c".data, ["y".data])] : List Req).getD 0 ([], [])).2 =
        joinNl (([("a".data, ["x".data]), ("b".data, ["x".data]),
          ("c".data, ["y".data])] : List Req).getD 1 ([], [])).2 →
      ¬(runReqs [("a".data, ["x".data]), ("b".data, ["x".data]),
          ("c".data, ["y".data])] initContext).1.getD 0 [] =
        (runReqs [("a".data, ["x".data]), ("b".data, ["x".data]),
          ("c".data, ["y".data])] initContext).1.getD 1 [])) :=
  ⟨by decide, by decide,
   style_interning [("a".data, ["x".data]), ("b".data, ["x".data]),
     ("c".data, ["y".data])] 0 1 (by decide) (by decide)⟩

/-- C3 counterexample: serialization is NOT invariant under shuffling the
visit order: the runs `[("a", ["p"]), ("a", ["q"])]` and its reversal are
permutations of each other, yet produce different CSS text (in the first
run signature `p` is interned as class `a` and `q` as `a-2`; reversing the
visit order swaps the assignment). -/
theorem css_visit_order_dependent :
    ([("a".data, ["p".data]), ("a".data, ["q".data])] : List Req).Perm
      [("a".data, ["q".data]), ("a".data, ["p".data])] ∧
    ¬serializeCss
        (runReqs [("a".data, ["p".data]), ("a".data, ["q".data])] initContext).2 =
      serializeCss
        (runReqs [("a".data, ["q".data]), ("a".data, ["p".data])] initContext).2 := by
  decide

/-- C3 (amended): the serialized stylesheet always lists its style entries
sorted by (baseName, suffix) ascending (suffix 0 before suffix 2); and the
final CSS text is invariant under permuting the visit order PROVIDED two
requests use the same base name exactly when they carry the same
signature — without that proviso the class-name assignment, and hence the
CSS text, depends on visit order. -/
theorem css_serialization_order (reqs reqs' : List Req)
    (hperm : reqs.Perm reqs')
    (hcond : pairCond (reqs.map keyPair)) :
    (∀ ctx : ExportContext,
      List.Sorted entryLE (sortStyleEntries ctx.styleEntries)) ∧
    serializeCss (runReqs reqs initContext).2 =
      serializeCss (runReqs reqs' initContext).2 := by
  constructor
  · intro ctx
    exact List.sorted_insertionSort entryLE ctx.styleEntries
  · have hcond' : pairCond (reqs'.map keyPair) := by
      intro p hp q hq
      exact hcond p ((hperm.map keyPair).mem_iff.mpr hp) q
        ((hperm.map keyPair).mem_iff.mpr hq)
    have h1 : (runReqs reqs initContext).2 = ctxOfPairs (simPairs reqs []) := by
      have := runReqs_sim reqs [] (by simpa using hcond) List.nodup_nil
      rw [List.nil_append] at this
      exact this
    have h2 : (runReqs reqs' initContext).2 = ctxOfPairs (simPairs reqs' []) := by
      have := runReqs_sim reqs' [] (by simpa using hcond') List.nodup_nil
      rw [List.nil_append] at this
      exact this
    rw [h1, h2]
    have hnd1 : (simPairs reqs []).Nodup :=
      List.Nodup.of_map Prod.snd (simPairs_sigs reqs []).1
    have hnd2 : (simPairs reqs' []).Nodup :=
      List.Nodup.of_map Prod.snd (simPairs_sigs reqs' []).1
    have hpp : (simPairs reqs []).Perm (simPairs reqs' []) := by
      rw [List.perm_ext_iff_of_nodup hnd1 hnd2]
      intro q
      rw [simPairs_mem reqs [] (by simpa using hcond) q,
        simPairs_mem reqs' [] (by simpa using hcond') q]
      constructor
      · rintro ⟨hq, h0⟩
        exact ⟨(hperm.map keyPair).subset hq, h0⟩
      · rintro ⟨hq, h0⟩
        exact ⟨(hperm.map keyPair).symm.subset hq, h0⟩
    have hbase1 : ((simPairs reqs []).map Prod.fst).Nodup := by
      apply List.Nodup.map_on ?_ hnd1
      intro x hx y hy hxy
      have hx' := ((simPairs_mem reqs [] (by simpa using hcond) x).mp hx).1
      have hy' := ((simPairs_mem reqs [] (by simpa using hcond) y).mp hy).1
      exact Prod.ext hxy ((hcond x hx' y hy').mp hxy)
    have hnames : ∀ ps : List (Str × Str),
        (ps.map mkSimEntry).map StyleEntry.baseName = ps.map Prod.fst := by
      intro ps
      rw [List.map_map]
      exact List.map_congr_left (fun p _ => rfl)
    have hsorteq : List.insertionSort entryLE ((simPairs reqs []).map mkSimEntry) =
        List.insertionSort entryLE ((simPairs reqs' []).map mkSimEntry) := by
      apply sorted_nodupKeys_unique
      · exact ((List.perm_insertionSort entryLE _).trans
          (hpp.map mkSimEntry)).trans (List.perm_insertionSort entryLE _).symm
      · exact List.sorted_insertionSort entryLE _
      · exact List.sorted_insertionSort entryLE _
      · have hp2 : ((List.insertionSort entryLE
            ((simPairs reqs []).map mkSimEntry)).map StyleEntry.baseName).Perm
            (((simPairs reqs []).map mkSimEntry).map StyleEntry.baseName) :=
          (List.perm_insertionSort entryLE _).map _
        rw [hp2.nodup_iff, hnames]
        exact hbase1
    unfold serializeCss sortStyleEntries
    have hent : ∀ ps : List (Str × Str),
        (ctxOfPairs ps).styleEntries = ps.map mkSimEntry := fun ps => rfl
    rw [hent, hent, hsorteq]

/-- Witness for C3 on a two-request run whose bases and signatures agree. -/
theorem css_serialization_order_witness :
    ([("a".data, ["x".data]), ("b".data, ["y".data])] : List Req).Perm
      [("b".data, ["y".data]), ("a".data, ["x".data])] ∧
    pairCond (([("a".data, ["x".data]), ("b".data, ["y".data])] : List Req).map keyPair) ∧
    ((∀ ctx : ExportContext,
        List.Sorted entryLE (sortStyleEntries ctx.styleEntries)) ∧
     serializeCss (runReqs [("a".data, ["x".data]), ("b".data, ["y".data])]
        initContext).2 =
       serializeCss (runReqs [("b".data, ["y".data]), ("a".data, ["x".data])]
        initContext).2) :=
  ⟨by decide, by decide,
   css_serialization_order [("a".data, ["x".data]), ("b".data, ["y".data])]
     [("b".data, ["y".data]), ("a".data, ["x".data])] (by decide) (by decide)⟩

end FigmaExport
